import Mathlib

/-!
# Winlogbeat backend of the collector sidecar: configuration rendering

A shallow embedding of `backends/beats/winlogbeat/render.go`
(`snippetsToString`, `Render`, `RenderToFile`, `RenderOnChange`, `runMigrations`)
together with the parts of the `beats` package it calls, and the properties of the
natural-language specification proved about it.

Conventions of the embedding.

* A Go `interface{}` holding a configuration node is a `Value`; a Go
  `map[string]interface{}` is an association list read through its first binding of a
  key (`index`), written in place (`assign`) and deleted from (`remove`).  Go map
  iteration (`range output.Properties`) is the list order, so a statement over all
  lists covers every enumeration order.
* Nodes are assumed not to be shared between two places of a tree, so the in-place
  mutation of a nested map is the rewriting of the node at its path.
* A Go panic (failed single-value type assertion) is `none`.
* Library and operating-system functions (text/template, yaml, filepath, ioutil) are
  fields of `Externals` and `Disk`; theorems hold for every choice of them.
-/

namespace Winlogbeat

/-! ## Configuration nodes -/

/-- A configuration node: the dynamic value of a Go `interface{}` in the container. -/
inductive Value where
  | null
  | str (s : String)
  | bool (b : Bool)
  | num (n : Int)
  | list (xs : List Value)
  | map (m : List (String × Value))

/-- The Go type `map[string]interface{}`. -/
abbrev Fields := List (String × Value)

/-- First binding of a key, if any. -/
def findKey {α : Type} (k : String) : List (String × α) → Option α
  | [] => none
  | (k2, w) :: rest => if k2 = k then some w else findKey k rest

/-- Go `mmap[k]`: the bound value, `nil` when the key is absent. -/
def index (m : Fields) (k : String) : Value :=
  (findKey k m).getD Value.null

/-- Go `mmap[k] = v`: overwrite the binding of `k` where it stands, or add one. -/
def assign {α : Type} (k : String) (v : α) : List (String × α) → List (String × α)
  | [] => [(k, v)]
  | (k2, w) :: rest => if k2 = k then (k, v) :: rest else (k2, w) :: assign k v rest

/-- Go `delete(mmap, k)`. -/
def remove {α : Type} (k : String) (m : List (String × α)) : List (String × α) :=
  m.filter (fun e => decide (e.1 ≠ k))

/-- The node reached through `mmap[k]` is rewritten by `f` (in-place mutation of a nested node). -/
def modify {α : Type} (k : String) (f : α → α) : List (String × α) → List (String × α)
  | [] => []
  | (k2, w) :: rest => if k2 = k then (k2, f w) :: rest else (k2, w) :: modify k f rest

/-- Go `x != nil` negated, for an `interface{}`. -/
def Value.isNull : Value → Bool
  | .null => true
  | _ => false

/-- Go `x == true` for an `interface{}`: dynamic type bool and value true. -/
def Value.isTrue : Value → Bool
  | .bool true => true
  | _ => false

/-- A node that `Set` may descend into or create: a mapping, or a missing (`nil`) node. -/
def Value.asMap? : Value → Option Fields
  | .map m => some m
  | .null => some []
  | _ => none

/-- Modelled from the spec: `PathTree.Set` on the container (the source of
`beats.BeatsConfig.Set` is not available).  Missing intermediate segments are created as
mappings, the final segment is assigned whatever was there, and when a node on the way is
not a mapping the write is not applied; the empty path writes nothing.  A missing node is
Go `nil`, whether the key is absent or bound to `nil`. -/
def setPath (v : Value) : List String → Value → Value
  | [], t => t
  | [k], t =>
    match t.asMap? with
    | some m => .map (assign k v m)
    | none => t
  | k :: k2 :: rest, t =>
    match t.asMap? with
    | some m => .map (assign k (setPath v (k2 :: rest) (index m k)) m)
    | none => t

/-- Modelled from the spec: `PathTree.Get`; `none` when a segment is missing or the
current node is not a mapping. -/
def getPath : List String → Value → Option Value
  | [], t => some t
  | k :: rest, .map m => (findKey k m).bind (getPath rest)
  | _ :: _, _ => none

/-- Modelled from the spec: deep structural comparison, order-insensitive for mappings
and order-sensitive for sequences; `le a b` is the half "every binding of `a` is in `b`"
and `Value.deepEq` asks it both ways. -/
def Value.le : Value → Value → Bool
  | .null, .null => true
  | .str a, .str b => a == b
  | .bool a, .bool b => a == b
  | .num a, .num b => a == b
  | .list xs, .list ys => leList xs ys
  | .map m, .map n => leMap m n
  | _, _ => false
termination_by structural x => x
where
  /-- Sequences: same length, pointwise. -/
  leList : List Value → List Value → Bool
    | [], [] => true
    | x :: xs, y :: ys => Value.le x y && leList xs ys
    | _, _ => false
  termination_by structural x => x
  /-- Mappings: every key of the left is bound on the right to a matching node. -/
  leMap : List (String × Value) → List (String × Value) → Bool
    | [], _ => true
    | (k, v) :: rest, n =>
      (match findKey k n with
        | some w => Value.le v w
        | none => false) && leMap rest n
  termination_by structural x => x

/-- Modelled from the spec: `PathTree.Equals` on two nodes. -/
def Value.deepEq (a b : Value) : Bool :=
  Value.le a b && Value.le b a

/-! ## The `beats` configuration object -/

/-- Agent version `(major, minor, patch)`: `Beats.Version[0]`, `[1]`, `[2]`. -/
structure AgentVersion where
  major : Int
  minor : Int
  patch : Int

/-- A stored snippet of `BeatsConfig.Snippets`. -/
structure BeatSnippet where
  Name : String
  Value : String

/-- Go `Beats.UserConfig`: the backend section of the sidecar configuration. -/
structure BackendUserConfig where
  RunPath : String
  BinaryPath : String
  ConfigurationPath : String

/-- Go `Beats.Context.UserConfig`: the sidecar configuration. -/
structure SidecarConfig where
  Tags : List String
  LogPath : String

/-- Go `Beats.Context`. -/
structure Ctx where
  CollectorId : String
  UserConfig : SidecarConfig
  Inventory : Value

/-- Go `beats.BeatsConfig`. -/
structure BeatsConfig where
  Context : Ctx
  UserConfig : BackendUserConfig
  Version : AgentVersion
  Container : Value
  Snippets : List BeatSnippet

/-- Modelled from the spec: `bc.Set(value, path...)` writes the container through
`setPath`. -/
def BeatsConfig.Set (bc : BeatsConfig) (v : Value) (path : List String) : BeatsConfig :=
  { bc with Container := setPath v path bc.Container }

/-- Modelled from the spec: `bc.Data()` is the container, `nil` when there is none. -/
def BeatsConfig.Data (bc : BeatsConfig) : Value := bc.Container

/-- Modelled from the spec: `Equals` of two configurations (the source of
`beats.BeatsConfig.Equals` is not available): deep comparison of the containers, and the
same snippet collection. -/
def BeatsConfig.Equals (bc a : BeatsConfig) : Bool :=
  Value.deepEq bc.Container a.Container &&
    decide (bc.Snippets.map (fun s => (s.Name, s.Value))
      = a.Snippets.map (fun s => (s.Name, s.Value)))

/-- Modelled from the spec: `Update` replaces the contents of the active configuration
(container and snippets) with those of the candidate, in place. -/
def BeatsConfig.Update (bc a : BeatsConfig) : BeatsConfig :=
  { bc with Container := a.Container, Snippets := a.Snippets }

/-- Modelled from the spec: `AppendString` appends a snippet, by id, to the snippet
collection. -/
def BeatsConfig.AppendString (bc : BeatsConfig) (name value : String) : BeatsConfig :=
  { bc with Snippets := bc.Snippets ++ [{ Name := name, Value := value }] }

/-- Library functions the file calls, as parameters. -/
structure Externals where
  /-- Whether `template.New("snippet").Parse(src)` succeeds. -/
  templateParses : String → Bool
  /-- What `Execute` of the template parsed from `src` writes to its writer. -/
  templateExecute : String → Value → String
  /-- Go `bc.String()`: the serialised configuration. -/
  serialize : BeatsConfig → String
  /-- Go `yaml.Unmarshal` into a `[]interface{}`; `none` on error. -/
  yamlUnmarshal : String → Option (List Value)
  /-- Go `bc.PropertyBool`. -/
  PropertyBool : Value → Bool
  /-- Go `bc.PropertyString`. -/
  PropertyString : Value → Int → String
  /-- Go `fmt.Sprintf("%s", v)`. -/
  sprint : Value → String
  /-- Go `filepath.Dir`. -/
  filepathDir : String → String
  /-- Go `filepath.Join` of two elements. -/
  filepathJoin : String → String → String
  /-- The constant `backends.StatusError`. -/
  StatusError : Int

/-! ## `runMigrations` -/

/-- Body of the first loop at the last segment (lines 173-180), on the `tls` mapping. -/
def renameSslProperties (mmap : Fields) : Fields :=
  let m1 :=
    if (index mmap "certificate_key").isNull then mmap
    else remove "certificate_key" (assign "key" (index mmap "certificate_key") mmap)
  if (index m1 "insecure").isTrue then
    remove "insecure" (assign "verification_mode" (Value.str "none") m1)
  else m1

/-- Body of the second loop at the last segment (lines 192-195), on the `logstash` mapping. -/
def renameTls (mmap : Fields) : Fields :=
  if (index mmap "tls").isNull then mmap
  else remove "tls" (assign "ssl" (index mmap "tls") mmap)

/-- The path walk of lines 170-184 and 189-199: `cp` advances through `mmap[segment]`
while it is a mapping; at the last segment the mapping under the cursor is mutated by
`act`.  A cursor that is not a mapping stays where it is and nothing is mutated. -/
def walk (act : Fields → Fields) : List String → Value → Value
  | [], cp => cp
  | [_], .map mmap => .map (act mmap)
  | k :: k2 :: rest, .map mmap => .map (modify k (walk act (k2 :: rest)) mmap)
  | _ :: _, cp => cp

/-- Go `bc.Container.(map[string]interface{})`: panics unless the container is a mapping. -/
def assertMap : Value → Option Fields
  | .map m => some m
  | _ => none

/-- The third loop (lines 202-212), over `["shipper", "tags"]`. -/
def removeShipper (bc : BeatsConfig) : Option BeatsConfig :=
  let cp0 := bc.Container
  -- target = 0
  let cp1 := match cp0 with
    | .map mmap => index mmap "shipper"
    | _ => cp0
  -- target = 1
  match cp1 with
  | .map mmap =>
    let bc1 := bc.Set (index mmap "tags") ["tags"]
    (assertMap bc1.Container).map
      (fun root => { bc1 with Container := Value.map (remove "shipper" root) })
  | _ => some bc

/-- Go `wlbc.runMigrations(bc)`, with `wlbc.Beats` the configuration `wl` whose version and
paths are read; `none` is a panic. -/
def runMigrations (ext : Externals) (wl bc : BeatsConfig) : Option BeatsConfig :=
  if wl.Version.major = 5 ∧ wl.Version.minor = 0 then
    -- rename ssl properties
    let c1 := walk renameSslProperties ["output", "logstash", "tls", "certificate_key"] bc.Container
    -- rename tls -> ssl
    let c2 := walk renameTls ["output", "logstash", "tls"] c1
    let bc2 := { bc with Container := c2 }
    -- remove shipper
    (removeShipper bc2).map (fun bc3 =>
      -- set cache data path
      let dataPath :=
        if wl.UserConfig.RunPath = "" then
          ext.filepathJoin (ext.filepathDir wl.UserConfig.BinaryPath) "data"
        else wl.UserConfig.RunPath
      let bc4 := bc3.Set (Value.str dataPath) ["path", "data"]
      -- configure log path
      bc4.Set (Value.str wl.Context.UserConfig.LogPath) ["path", "logs"])
  else some bc

/-! ## Rendering -/

/-- Go `wlbc.snippetsToString()` (lines 34-48).  `buffer` is declared before the loop and
is the writer of every `Execute`; `result` receives `buffer.String()`. -/
def snippetsToString (ext : Externals) (bc : BeatsConfig) : String :=
  (bc.Snippets.foldl
    (fun (st : String × String) snippet =>
      -- st.1 is buffer, st.2 is result
      if ext.templateParses snippet.Value then
        let buffer := st.1 ++ ext.templateExecute snippet.Value bc.Context.Inventory
        (buffer, st.2 ++ buffer ++ "\n")
      else
        (st.1, st.2 ++ snippet.Value ++ "\n"))
    ("", "")).2

/-- The backend object: `wlbc.Beats` and the status last set through `SetStatus`. -/
structure WinLogBeatConfig where
  Beats : BeatsConfig
  Status : Option (Int × String)

/-- Modelled from the spec: `wlbc.SetStatus(state, message)` records the status reported
and its message. -/
def WinLogBeatConfig.SetStatus (wlbc : WinLogBeatConfig) (state : Int) (message : String) :
    WinLogBeatConfig :=
  { wlbc with Status := some (state, message) }

/-- Go `wlbc.Render()` (lines 50-63): the rendered text, and the backend object after the
migrations ran on `wlbc.Beats` itself (`beatsConfig := wlbc.Beats` copies a pointer). -/
def Render (ext : Externals) (wlbc : WinLogBeatConfig) : Option (String × WinLogBeatConfig) :=
  if wlbc.Beats.Data.isNull then some ("", wlbc)
  else
    (runMigrations ext wlbc.Beats wlbc.Beats).map (fun beatsConfig =>
      (ext.serialize beatsConfig ++ snippetsToString ext beatsConfig,
        { wlbc with Beats := beatsConfig }))

/-- Outcome of the two file-system calls, as parameters: `none` is success, `some e` the
error returned. -/
structure Disk where
  /-- Go `common.CreatePathToFile(path)`. -/
  createPathToFile : String → Option String
  /-- Go `ioutil.WriteFile(path, data, 0644)`. -/
  writeFile : String → String → Option String

/-- The backend object and the calls of `ioutil.WriteFile` made so far, latest first. -/
structure System where
  wlbc : WinLogBeatConfig
  writes : List (String × String)

/-- Go `wlbc.RenderToFile()` (lines 65-73): the returned error and the system afterwards. -/
def RenderToFile (ext : Externals) (disk : Disk) (sys : System) :
    Option (Option String × System) :=
  (Render ext sys.wlbc).map (fun r =>
    let stringConfig := r.1
    let path := r.2.Beats.UserConfig.ConfigurationPath
    match disk.createPathToFile path with
    | some err => (some err, { sys with wlbc := r.2 })
    | none =>
      (disk.writeFile path stringConfig,
        { wlbc := r.2, writes := (path, stringConfig) :: sys.writes }))

/-! ## `RenderOnChange` -/

/-- An entry of `response.Outputs` or `response.Inputs`. -/
structure ResponseCollectorEntry where
  Backend : String
  Type_ : String
  Properties : List (String × Value)

/-- An entry of `response.Snippets`. -/
structure ResponseCollectorSnippet where
  Backend : String
  Id : String
  Value : String

/-- Go `graylog.ResponseCollectorConfiguration`. -/
structure ResponseCollectorConfiguration where
  Outputs : List ResponseCollectorEntry
  Inputs : List ResponseCollectorEntry
  Snippets : List ResponseCollectorSnippet

/-- Modelled from the spec: `NewCollectorConfig(context)` gives a fresh, empty
configuration for the same context (the source of the constructor is not available). -/
def NewCollectorConfig (active : BeatsConfig) : BeatsConfig :=
  { active with Container := Value.map [], Snippets := [] }

/-- Lines 85-95: the generic copy of one output, the tls properties ignored. -/
def copyProperties (ty : String) (props : List (String × Value)) (newConfig : BeatsConfig) :
    BeatsConfig :=
  props.foldl
    (fun c e =>
      if e.1 = "tls" ∨ e.1 = "ca_file" ∨ e.1 = "cert_file" ∨ e.1 = "cert_key_file" ∨
          e.1 = "tls_insecure" then c
      else c.Set e.2 ["output", ty, e.1])
    newConfig

/-- Lines 96-109: the tls settings of one output. -/
def projectTls (ext : Externals) (props : Fields) (newConfig : BeatsConfig) : BeatsConfig :=
  if ext.PropertyBool (index props "tls") then
    let c1 :=
      if ext.PropertyBool (index props "ca_file") then
        newConfig.Set (Value.list [Value.str (ext.PropertyString (index props "ca_file") 0)])
          ["output", "logstash", "tls", "certificate_authorities"]
      else newConfig
    let c2 :=
      if ext.PropertyBool (index props "cert_file") then
        c1.Set (index props "cert_file") ["output", "logstash", "tls", "certificate"]
      else c1
    let c3 :=
      if ext.PropertyBool (index props "cert_key_file") then
        c2.Set (index props "cert_key_file") ["output", "logstash", "tls", "certificate_key"]
      else c2
    if ext.PropertyBool (index props "tls_insecure") then
      c3.Set (Value.bool (ext.PropertyBool (index props "tls_insecure")))
        ["output", "logstash", "tls", "insecure"]
    else c3
  else newConfig

/-- Lines 83-111: the loop over `response.Outputs`. -/
def outputsLoop (ext : Externals) (outputs : List ResponseCollectorEntry)
    (newConfig : BeatsConfig) : BeatsConfig :=
  outputs.foldl
    (fun c output =>
      if output.Backend = "winlogbeat" then
        projectTls ext output.Properties (copyProperties output.Type_ output.Properties c)
      else c)
    newConfig

/-- Lines 115-128: the properties of one input; an error is the message of the abort. -/
def inputProperties (ext : Externals) :
    List (String × Value) → List Value → Except String (List Value)
  | [], eventlogs => .ok eventlogs
  | (_, value) :: rest, eventlogs =>
    match ext.yamlUnmarshal (ext.PropertyString value 0) with
    | none => .error ("Nested YAML is not parsable: \x27" ++ ext.sprint value ++ "\x27")
    | some vt => inputProperties ext rest (eventlogs ++ vt)

/-- Lines 113-130: the loop over `response.Inputs`. -/
def inputsLoop (ext : Externals) :
    List ResponseCollectorEntry → List Value → Except String (List Value)
  | [], eventlogs => .ok eventlogs
  | input :: rest, eventlogs =>
    if input.Backend = "winlogbeat" then
      match inputProperties ext input.Properties eventlogs with
      | .error msg => .error msg
      | .ok eventlogs2 => inputsLoop ext rest eventlogs2
    else inputsLoop ext rest eventlogs

/-- Lines 133-137: the loop over `response.Snippets`. -/
def snippetsLoop (snippets : List ResponseCollectorSnippet) (newConfig : BeatsConfig) :
    BeatsConfig :=
  snippets.foldl
    (fun c snippet =>
      if snippet.Backend = "winlogbeat" then c.AppendString snippet.Id snippet.Value else c)
    newConfig

/-- Lines 76-142 of `RenderOnChange`: `newConfig.Beats` as it stands before the
comparison, or the message of the parse error that ends the call. -/
def candidate (ext : Externals) (active : BeatsConfig)
    (response : ResponseCollectorConfiguration) : Except String BeatsConfig :=
  let c0 := (NewCollectorConfig active).Set
    (Value.list (active.Context.UserConfig.Tags.map Value.str)) ["shipper", "tags"]
  let c1 := outputsLoop ext response.Outputs c0
  match inputsLoop ext response.Inputs [] with
  | .error msg => .error msg
  | .ok eventlogs =>
    let c2 := c1.Set (Value.list eventlogs) ["winlogbeat", "event_logs"]
    let c3 := snippetsLoop response.Snippets c2
    -- gl2_source_collector can not be set with Winlogbeat so the shipper name is used
    .ok (if active.Version.major ≥ 5 then c3.Set (Value.str active.Context.CollectorId) ["name"]
      else c3)

/-- Go `wlbc.RenderOnChange(response)` (lines 75-152): the returned boolean and the system
afterwards; `none` is a panic.  Log output is not modelled. -/
def RenderOnChange (ext : Externals) (disk : Disk) (response : ResponseCollectorConfiguration)
    (sys : System) : Option (Bool × System) :=
  match candidate ext sys.wlbc.Beats response with
  | .error msg =>
    some (false, { sys with wlbc := sys.wlbc.SetStatus ext.StatusError msg })
  | .ok newConfig =>
    if !sys.wlbc.Beats.Equals newConfig then
      let sys1 := { sys with wlbc := { sys.wlbc with Beats := sys.wlbc.Beats.Update newConfig } }
      (RenderToFile ext disk sys1).map (fun r => (true, r.2))
    else some (false, sys)

/-! ## Auxiliary notions for the proofs -/

/-- The value written to `path.data` (lines 215-218). -/
def dataPath (ext : Externals) (wl : BeatsConfig) : String :=
  if wl.UserConfig.RunPath = "" then
    ext.filepathJoin (ext.filepathDir wl.UserConfig.BinaryPath) "data"
  else wl.UserConfig.RunPath

/-- The two path settings of lines 219 and 222, on a container. -/
def pathSettings (ext : Externals) (wl : BeatsConfig) (c : Value) : Value :=
  setPath (Value.str wl.Context.UserConfig.LogPath) ["path", "logs"]
    (setPath (Value.str (dataPath ext wl)) ["path", "data"] c)

/-- The two renaming walks of lines 168-199, on a container. -/
def renameWalks (c : Value) : Value :=
  walk renameTls ["output", "logstash", "tls"]
    (walk renameSslProperties ["output", "logstash", "tls", "certificate_key"] c)

/-- No `tls` node is left where the renaming walks look for one. -/
def TlsGone (c : Value) : Prop :=
  ∀ r o l, c = Value.map r → findKey "output" r = some (Value.map o) →
    findKey "logstash" o = some (Value.map l) → index l "tls" = Value.null

/-- No `shipper` mapping is left at the root. -/
def ShipperGone (c : Value) : Prop :=
  ∀ r mmap, c = Value.map r → index r "shipper" ≠ Value.map mmap

/-- Whether `Set` along a path reaches its last segment: every node on the way is a
mapping or missing. -/
def settable : List String → Value → Bool
  | [], _ => true
  | [_], t => t.asMap?.isSome
  | k :: k2 :: rest, t =>
    match t.asMap? with
    | some m => settable (k2 :: rest) (index m k)
    | none => false

/-- The property names of an output that the generic copy ignores (lines 87-91). -/
abbrev tlsProperty (property : String) : Prop :=
  property = "tls" ∨ property = "ca_file" ∨ property = "cert_file" ∨
    property = "cert_key_file" ∨ property = "tls_insecure"

/-- The keys written under `output.logstash.tls` (lines 98-107). -/
def tlsKeys : List String :=
  ["certificate_authorities", "certificate", "certificate_key", "insecure"]

/-- The candidate as line 81 leaves it: fresh, with the tags of the local context. -/
def seedConfig (active : BeatsConfig) : BeatsConfig :=
  (NewCollectorConfig active).Set
    (Value.list (active.Context.UserConfig.Tags.map Value.str)) ["shipper", "tags"]

/-- Whether an entry of the response is consumed by this backend. -/
def matchesBackend (entry : ResponseCollectorEntry) : Bool :=
  decide (entry.Backend = "winlogbeat")

/-- The list a property value encodes, empty when its text does not parse. -/
def parsedList (ext : Externals) (value : Value) : List Value :=
  (ext.yamlUnmarshal (ext.PropertyString value 0)).getD []

/-- The parsed elements of the property values of one input, flattened in the order in
which the properties are enumerated and, within each list, in element order. -/
def propertyEntries (ext : Externals) : List (String × Value) → List Value
  | [] => []
  | e :: rest => parsedList ext e.2 ++ propertyEntries ext rest

/-- The flattened list of the specification: the parsed elements of every input of this
backend, in the order of the inputs. -/
def inputEntries (ext : Externals) : List ResponseCollectorEntry → List Value
  | [] => []
  | input :: rest =>
    (if input.Backend = "winlogbeat" then propertyEntries ext input.Properties else [])
      ++ inputEntries ext rest

/-- The response without the entries of other backends. -/
def filterResponse (response : ResponseCollectorConfiguration) :
    ResponseCollectorConfiguration where
  Outputs := response.Outputs.filter matchesBackend
  Inputs := response.Inputs.filter matchesBackend
  Snippets := response.Snippets.filter (fun snippet => decide (snippet.Backend = "winlogbeat"))

/-- The cursor `cp` of the third loop when its last iteration starts (line 205). -/
def shipperCursor (container : Value) : Value :=
  match container with
  | .map mmap => index mmap "shipper"
  | _ => container

/-- The mutation of the node under the cursor at the last segment of a walk: applied to
a mapping, nothing otherwise. -/
def actOn (act : Fields → Fields) : Value → Value
  | .map mmap => .map (act mmap)
  | cp => cp

/-! ## Concrete inputs -/

/-- An instance of the library parameters for evaluating examples: it agrees with the Go
libraries on the inputs the examples use (template sources without actions, the yaml
texts listed, string and boolean properties). -/
def exampleExternals : Externals where
  templateParses := fun _ => true
  templateExecute := fun src _ => src
  serialize := fun _ => ""
  yamlUnmarshal := fun s =>
    if s = "" then some []
    else if s = "[Application]" then some [Value.str "Application"]
    else if s = "[Security, System]" then some [Value.str "Security", Value.str "System"]
    else none
  PropertyBool := fun v =>
    match v with
    | .bool b => b
    | .str s => decide (s ≠ "")
    | _ => false
  PropertyString := fun v _ =>
    match v with
    | .str s => s
    | _ => ""
  sprint := fun v =>
    match v with
    | .str s => s
    | _ => ""
  filepathDir := fun p => if p = "/usr/bin/winlogbeat" then "/usr/bin" else "."
  filepathJoin := fun a b => a ++ "/" ++ b
  StatusError := 2

/-- A disk on which both calls succeed. -/
def goodDisk : Disk where
  createPathToFile := fun _ => none
  writeFile := fun _ _ => none

/-- A disk on which the parent directory cannot be created and the file cannot be written. -/
def badDisk : Disk where
  createPathToFile := fun _ => some "permission denied"
  writeFile := fun _ _ => some "permission denied"

/-- A configuration object of a given version and container, without snippets. -/
def exampleConfig (major minor patch : Int) (container : Value) : BeatsConfig where
  Context :=
    { CollectorId := "collector-1"
      UserConfig := { Tags := ["windows"], LogPath := "/var/log/sidecar" }
      Inventory := Value.null }
  UserConfig :=
    { RunPath := "/var/run/sidecar"
      BinaryPath := "/usr/bin/winlogbeat"
      ConfigurationPath := "/etc/sidecar/winlogbeat.yml" }
  Version := { major := major, minor := minor, patch := patch }
  Container := container
  Snippets := []

/-- The tree of the end-to-end example: a logstash output with tls settings. -/
def tlsTree : Value :=
  Value.map [("output", Value.map [("logstash", Value.map [("tls",
    Value.map [("certificate_key", Value.str "k1"), ("insecure", Value.bool true)])])])]


/-- A response whose only input carries a property value that is not a yaml list. -/
def malformedResponse : ResponseCollectorConfiguration where
  Outputs :=
    [{ Backend := "winlogbeat", Type_ := "logstash",
       Properties := [("hosts", Value.list [Value.str "graylog:5044"])] }]
  Inputs :=
    [{ Backend := "winlogbeat", Type_ := "windows-event-log",
       Properties := [("event", Value.str "not-a-list")] }]
  Snippets := []

/-- A system whose active configuration is the tls tree, with nothing written yet. -/
def exampleSystem (major minor patch : Int) : System where
  wlbc := { Beats := exampleConfig major minor patch tlsTree, Status := none }
  writes := []

/-- A well-formed response: one logstash output, one input with a list of channels. -/
def exampleResponse : ResponseCollectorConfiguration where
  Outputs :=
    [{ Backend := "winlogbeat", Type_ := "logstash",
       Properties := [("hosts", Value.list [Value.str "graylog:5044"])] }]
  Inputs :=
    [{ Backend := "winlogbeat", Type_ := "windows-event-log",
       Properties := [("event", Value.str "[Application]")] }]
  Snippets := []

/-- A system just initialised: empty active configuration, nothing written. -/
def freshSystem (major minor patch : Int) : System where
  wlbc := { Beats := exampleConfig major minor patch (Value.map []), Status := none }
  writes := []

/-- Two snippets whose sources are plain text. -/
def twoSnippets : List BeatSnippet :=
  [{ Name := "s1", Value := "a" }, { Name := "s2", Value := "b" }]

/-- The response of the filtering example: one output with every tls property and `hosts`. -/
def filteringResponse : ResponseCollectorConfiguration where
  Outputs :=
    [{ Backend := "winlogbeat", Type_ := "logstash",
       Properties :=
         [("hosts", Value.list [Value.str "graylog:5044"]), ("tls", Value.bool true),
          ("ca_file", Value.str "/etc/ca.pem"), ("cert_file", Value.str "/etc/cert.pem"),
          ("cert_key_file", Value.str "/etc/key.pem"), ("tls_insecure", Value.bool true)] }]
  Inputs := []
  Snippets := []

/-- A response with two inputs of this backend around an input of another backend whose
value is not a list, and snippets of both backends. -/
def mixedResponse : ResponseCollectorConfiguration where
  Outputs :=
    [{ Backend := "winlogbeat", Type_ := "logstash",
       Properties := [("hosts", Value.list [Value.str "graylog:5044"])] },
     { Backend := "filebeat", Type_ := "logstash",
       Properties := [("hosts", Value.list [Value.str "other:5044"])] }]
  Inputs :=
    [{ Backend := "winlogbeat", Type_ := "windows-event-log",
       Properties := [("event", Value.str "[Application]")] },
     { Backend := "filebeat", Type_ := "file",
       Properties := [("paths", Value.str "not-a-list")] },
     { Backend := "winlogbeat", Type_ := "windows-event-log",
       Properties := [("event", Value.str "[Security, System]")] }]
  Snippets :=
    [{ Backend := "filebeat", Id := "s0", Value := "x" },
     { Backend := "winlogbeat", Id := "s1", Value := "a" }]

/-- A tree whose tls settings stand under an `elasticsearch` output. -/
def elasticsearchTree : Value :=
  Value.map [("output", Value.map [("elasticsearch", Value.map [("tls",
    Value.map [("certificate_key", Value.str "k1"), ("insecure", Value.bool true)])])])]

/-- A tree with a certificate next to the key in the tls mapping, a host list next to
`tls` in the logstash output, and a second output. -/
def siblingsTree : Value :=
  Value.map [("output", Value.map
    [("logstash", Value.map
      [("hosts", Value.list [Value.str "graylog:5044"]),
       ("tls", Value.map
         [("certificate_key", Value.str "k1"), ("certificate", Value.str "/etc/cert.pem")])]),
     ("file", Value.map [("path", Value.str "/tmp/out")])])]

/-- A tree as the synchronizer seeds it: the tags of the local context under `shipper`. -/
def shipperTree : Value :=
  Value.map [("shipper", Value.map [("tags", Value.list [Value.str "windows"])]),
    ("name", Value.str "collector-1")]

/-- A tree with top-level tags and a `shipper` mapping without a `tags` key. -/
def staleShipperTree : Value :=
  Value.map [("tags", Value.list [Value.str "windows"]), ("shipper", Value.map [])]

/-- The example configuration with no run path configured. -/
def noRunPathConfig (container : Value) : BeatsConfig :=
  { exampleConfig 5 0 0 container with
    UserConfig :=
      { RunPath := ""
        BinaryPath := "/usr/bin/winlogbeat"
        ConfigurationPath := "/etc/sidecar/winlogbeat.yml" } }

/-- A response whose only input has two list-valued properties, enumerated `a` then `b`. -/
def twoPropertiesResponse : ResponseCollectorConfiguration where
  Outputs := []
  Inputs :=
    [{ Backend := "winlogbeat", Type_ := "windows-event-log",
       Properties := [("a", Value.str "[Application]"), ("b", Value.str "[Security, System]")] }]
  Snippets := []

/-- The same response with the two properties enumerated `b` then `a`. -/
def twoPropertiesSwapped : ResponseCollectorConfiguration where
  Outputs := []
  Inputs :=
    [{ Backend := "winlogbeat", Type_ := "windows-event-log",
       Properties := [("b", Value.str "[Security, System]"), ("a", Value.str "[Application]")] }]
  Snippets := []

/-- A tree with top-level tags and a `shipper` that is a scalar, not a mapping. -/
def scalarShipperTree : Value :=
  Value.map [("tags", Value.list [Value.str "windows"]), ("shipper", Value.str "legacy")]

/-- A response whose logstash output carries a property `ssl` next to its tls settings. -/
def sslPropertyResponse : ResponseCollectorConfiguration where
  Outputs :=
    [{ Backend := "winlogbeat", Type_ := "logstash",
       Properties :=
         [("ssl", Value.map [("old", Value.str "o")]), ("tls", Value.bool true),
          ("cert_file", Value.str "/etc/cert.pem")] }]
  Inputs := []
  Snippets := []

/-! ## Association lists -/

section assoc
variable {α : Type}

@[simp] theorem findKey_nil (k : String) : findKey k ([] : List (String × α)) = none := rfl

@[simp] theorem findKey_cons_same (k : String) (v : α) (m : List (String × α)) :
    findKey k ((k, v) :: m) = some v := by
  simp [findKey]

theorem findKey_cons_ne {k k2 : String} (h : k2 ≠ k) (v : α) (m : List (String × α)) :
    findKey k ((k2, v) :: m) = findKey k m := by
  simp [findKey, h]

@[simp] theorem findKey_assign_same (k : String) (v : α) (m : List (String × α)) :
    findKey k (assign k v m) = some v := by
  induction m with
  | nil => simp [assign, findKey]
  | cons e rest ih =>
    obtain ⟨k2, w⟩ := e
    by_cases h : k2 = k <;> simp [assign, findKey, h, ih]

theorem findKey_assign_ne {k k2 : String} (h : k2 ≠ k) (v : α) (m : List (String × α)) :
    findKey k2 (assign k v m) = findKey k2 m := by
  induction m with
  | nil => simp [assign, findKey, Ne.symm h]
  | cons e rest ih =>
    obtain ⟨k3, w⟩ := e
    by_cases h3 : k3 = k
    · subst h3
      simp [assign, findKey, Ne.symm h]
    · by_cases h4 : k3 = k2
      · subst h4
        simp [assign, findKey, h3]
      · simp [assign, findKey, h3, h4, ih]

@[simp] theorem findKey_remove_same (k : String) (m : List (String × α)) :
    findKey k (remove k m) = none := by
  induction m with
  | nil => simp [remove, findKey]
  | cons e rest ih =>
    obtain ⟨k2, w⟩ := e
    by_cases h : k2 = k
    · simpa [remove, h] using ih
    · simpa [remove, h, findKey] using ih

theorem findKey_remove_ne {k k2 : String} (h : k2 ≠ k) (m : List (String × α)) :
    findKey k2 (remove k m) = findKey k2 m := by
  induction m with
  | nil => simp [remove, findKey]
  | cons e rest ih =>
    obtain ⟨k3, w⟩ := e
    by_cases h3 : k3 = k
    · subst h3
      simpa [remove, findKey, Ne.symm h] using ih
    · by_cases h4 : k3 = k2
      · subst h4
        simp [remove, findKey, h3]
      · simpa [remove, findKey, h3, h4] using ih

@[simp] theorem findKey_modify_same (k : String) (f : α → α) (m : List (String × α)) :
    findKey k (modify k f m) = (findKey k m).map f := by
  induction m with
  | nil => simp [modify, findKey]
  | cons e rest ih =>
    obtain ⟨k2, w⟩ := e
    by_cases h : k2 = k <;> simp [modify, findKey, h, ih]

theorem findKey_modify_ne {k k2 : String} (h : k2 ≠ k) (f : α → α) (m : List (String × α)) :
    findKey k2 (modify k f m) = findKey k2 m := by
  induction m with
  | nil => simp [modify, findKey]
  | cons e rest ih =>
    obtain ⟨k3, w⟩ := e
    by_cases h3 : k3 = k
    · subst h3
      simp [modify, findKey, Ne.symm h]
    · by_cases h4 : k3 = k2
      · subst h4
        simp [modify, findKey, h3]
      · simp [modify, findKey, h3, h4, ih]

theorem assign_of_findKey {k : String} {v : α} {m : List (String × α)}
    (h : findKey k m = some v) : assign k v m = m := by
  induction m with
  | nil => simp [findKey] at h
  | cons e rest ih =>
    obtain ⟨k2, w⟩ := e
    by_cases h2 : k2 = k
    · subst h2
      simp [findKey] at h
      simp [assign, h]
    · simp [findKey, h2] at h
      simp [assign, h2, ih h]

theorem modify_of_fixed {k : String} {f : α → α} {m : List (String × α)}
    (h : ∀ w, findKey k m = some w → f w = w) : modify k f m = m := by
  induction m with
  | nil => simp [modify]
  | cons e rest ih =>
    obtain ⟨k2, w⟩ := e
    by_cases h2 : k2 = k
    · subst h2
      simp [modify, h w (by simp [findKey])]
    · simp [findKey, h2] at h
      simp [modify, h2, ih h]

theorem remove_of_findKey_none {k : String} {m : List (String × α)}
    (h : findKey k m = none) : remove k m = m := by
  induction m with
  | nil => simp [remove]
  | cons e rest ih =>
    obtain ⟨k2, w⟩ := e
    by_cases h2 : k2 = k
    · subst h2
      simp [findKey] at h
    · simp [findKey, h2] at h
      have := ih h
      simp [remove, h2] at this ⊢
      exact this

end assoc

theorem index_eq_of_findKey {m : Fields} {k : String} {v : Value} (h : findKey k m = some v) :
    index m k = v := by
  simp [index, h]

theorem index_of_findKey_none {m : Fields} {k : String} (h : findKey k m = none) :
    index m k = Value.null := by
  simp [index, h]

theorem getPath_cons_some {k : String} {rest : List String} {t v : Value}
    (h : getPath (k :: rest) t = some v) :
    ∃ m w, t = Value.map m ∧ findKey k m = some w ∧ getPath rest w = some v := by
  cases t with
  | map m =>
    simp only [getPath] at h
    cases hf : findKey k m with
    | none => simp [hf] at h
    | some w => exact ⟨m, w, rfl, hf, by simpa [hf] using h⟩
  | _ => simp [getPath] at h

/-- What the third loop and the two path settings leave of a root mapping: a mapping
that binds every key other than `tags`, `shipper` and `path` as before. -/
theorem removeShipper_map (bc : BeatsConfig) (r : Fields) (h : bc.Container = Value.map r) :
    ∃ r2, removeShipper bc = some { bc with Container := Value.map r2 } ∧
      ∀ k, k ≠ "tags" → k ≠ "shipper" → findKey k r2 = findKey k r := by
  unfold removeShipper
  simp only [h]
  cases hs : index r "shipper" with
  | map mmap =>
    refine ⟨remove "shipper" (assign "tags" (index mmap "tags") r), ?_, ?_⟩
    · simp [BeatsConfig.Set, setPath, Value.asMap?, h, assertMap]
    · intro k h1 h2
      rw [findKey_remove_ne h2, findKey_assign_ne h1]
  | _ => exact ⟨r, by rw [← h], fun _ _ _ => rfl⟩

theorem setPath_map_frame (v : Value) (p : String) (ps : List String) (r : Fields) :
    ∃ r2, setPath v (p :: ps) (Value.map r) = Value.map r2 ∧
      ∀ k, k ≠ p → findKey k r2 = findKey k r := by
  cases ps with
  | nil => exact ⟨assign p v r, by simp [setPath, Value.asMap?], fun k hk => findKey_assign_ne hk _ _⟩
  | cons p2 ps =>
    exact ⟨assign p (setPath v (p2 :: ps) (index r p)) r, by simp [setPath, Value.asMap?],
      fun k hk => findKey_assign_ne hk _ _⟩

/-- At version 5.0 a root mapping stays a root mapping, no panic occurs, and the binding of
every root key other than `tags`, `shipper` and `path` is the one left by the two walks. -/
theorem runMigrations_map (ext : Externals) (wl bc : BeatsConfig) (r : Fields)
    (hv : wl.Version.major = 5 ∧ wl.Version.minor = 0) (h : bc.Container = Value.map r) :
    ∃ bc2 r2, runMigrations ext wl bc = some bc2 ∧ bc2.Container = Value.map r2 ∧
      ∀ k, k ≠ "tags" → k ≠ "shipper" → k ≠ "path" →
        findKey k r2 = findKey k
          (modify "output" (walk renameTls ["logstash", "tls"])
            (modify "output" (walk renameSslProperties ["logstash", "tls", "certificate_key"]) r)) := by
  unfold runMigrations
  simp only [hv, and_self, if_true, h, walk]
  obtain ⟨r3, h3, hr3⟩ := removeShipper_map
    { bc with Container := Value.map (modify "output" (walk renameTls ["logstash", "tls"])
      (modify "output" (walk renameSslProperties ["logstash", "tls", "certificate_key"]) r)) } _ rfl
  rw [h3]
  simp only [Option.map_some', BeatsConfig.Set]
  obtain ⟨r4, h4, hr4⟩ := setPath_map_frame
    (Value.str (if wl.UserConfig.RunPath = "" then
      ext.filepathJoin (ext.filepathDir wl.UserConfig.BinaryPath) "data"
      else wl.UserConfig.RunPath)) "path" ["data"] r3
  obtain ⟨r5, h5, hr5⟩ := setPath_map_frame
    (Value.str wl.Context.UserConfig.LogPath) "path" ["logs"] r4
  refine ⟨_, r5, rfl, ?_, ?_⟩
  · simp only [h4, h5]
  · intro k h1 h2 h3
    rw [hr5 k h3, hr4 k h3, hr3 k h1 h2]

/-- C10 (version gate): when the agent version is not 5.0.x, `runMigrations` returns without
a panic and leaves the whole configuration, `path.data` and `path.logs` included, exactly
as it was. -/
theorem runMigrations_version_gate (ext : Externals) (wl bc : BeatsConfig)
    (h : ¬ (wl.Version.major = 5 ∧ wl.Version.minor = 0)) :
    runMigrations ext wl bc = some bc := by
  unfold runMigrations
  rw [if_neg h]

/-- C1 (end to end): at version (5,0,0), a tree with
`output.logstash.tls.certificate_key = "k1"` and `output.logstash.tls.insecure = true` is
migrated without a panic to a tree with `output.logstash.ssl.key = "k1"` and
`output.logstash.ssl.verification_mode = "none"`, where `output.logstash` has no `tls` key
and the `ssl` subtree has neither `certificate_key` nor `insecure`. -/
theorem runMigrations_tls_end_to_end (ext : Externals) (wl bc : BeatsConfig)
    (hv : wl.Version.major = 5 ∧ wl.Version.minor = 0 ∧ wl.Version.patch = 0)
    (hkey : getPath ["output", "logstash", "tls", "certificate_key"] bc.Container
      = some (Value.str "k1"))
    (hins : getPath ["output", "logstash", "tls", "insecure"] bc.Container
      = some (Value.bool true)) :
    ∃ bc2, runMigrations ext wl bc = some bc2 ∧
      getPath ["output", "logstash", "ssl", "key"] bc2.Container = some (Value.str "k1") ∧
      getPath ["output", "logstash", "ssl", "verification_mode"] bc2.Container
        = some (Value.str "none") ∧
      getPath ["output", "logstash", "tls"] bc2.Container = none ∧
      getPath ["output", "logstash", "ssl", "certificate_key"] bc2.Container = none ∧
      getPath ["output", "logstash", "ssl", "insecure"] bc2.Container = none := by
  obtain ⟨r, vo, hr, hfo, h1⟩ := getPath_cons_some hkey
  obtain ⟨o, vl, ho, hfl, h2⟩ := getPath_cons_some h1
  obtain ⟨l, vt, hl, hft, h3⟩ := getPath_cons_some h2
  obtain ⟨t, vk, ht, hfk, h4⟩ := getPath_cons_some h3
  simp only [getPath, Option.some.injEq] at h4
  subst ho hl ht h4
  have hfi : findKey "insecure" t = some (Value.bool true) := by
    simpa [getPath, hr, hfo, hfl, hft] using hins
  obtain ⟨bc2, r2, hrun, hc, hframe⟩ := runMigrations_map ext wl bc r ⟨hv.1, hv.2.1⟩ hr
  have hout := hframe "output" (by decide) (by decide) (by decide)
  refine ⟨bc2, hrun, ?_⟩
  simp [hc, getPath, hout, hfo, hfl, hft, walk, renameTls, renameSslProperties, index, hfk, hfi,
    Value.isNull, Value.isTrue, findKey_assign_ne, findKey_remove_ne, findKey_modify_ne]

/-- Concrete instance: version 6.0.0 on the tls tree. -/
theorem runMigrations_version_gate_witness :
    ¬ ((exampleConfig 6 0 0 tlsTree).Version.major = 5 ∧
        (exampleConfig 6 0 0 tlsTree).Version.minor = 0) ∧
      runMigrations exampleExternals (exampleConfig 6 0 0 tlsTree) (exampleConfig 6 0 0 tlsTree)
        = some (exampleConfig 6 0 0 tlsTree) :=
  ⟨by decide, runMigrations_version_gate _ _ _ (by decide)⟩

/-- Concrete instance: the tls tree at version 5.0.0. -/
theorem runMigrations_tls_end_to_end_witness :
    getPath ["output", "logstash", "tls", "certificate_key"] (exampleConfig 5 0 0 tlsTree).Container
        = some (Value.str "k1") ∧
      ∃ bc2, runMigrations exampleExternals (exampleConfig 5 0 0 tlsTree)
          (exampleConfig 5 0 0 tlsTree) = some bc2 ∧
        getPath ["output", "logstash", "ssl", "key"] bc2.Container = some (Value.str "k1") ∧
        getPath ["output", "logstash", "ssl", "verification_mode"] bc2.Container
          = some (Value.str "none") ∧
        getPath ["output", "logstash", "tls"] bc2.Container = none ∧
        getPath ["output", "logstash", "ssl", "certificate_key"] bc2.Container = none ∧
        getPath ["output", "logstash", "ssl", "insecure"] bc2.Container = none :=
  ⟨rfl, runMigrations_tls_end_to_end exampleExternals _ _ (by decide) rfl rfl⟩


/-! ## Idempotence of the migrations -/

theorem walk_of_asMap_none (act : Fields → Fields) (p : List String) (c : Value)
    (h : ∀ m, c ≠ Value.map m) : walk act p c = c := by
  cases c with
  | map m => exact absurd rfl (h m)
  | _ =>
    cases p with
    | nil => rfl
    | cons k t => cases t <;> rfl

theorem runMigrations_eq (ext : Externals) (wl bc : BeatsConfig)
    (hv : wl.Version.major = 5 ∧ wl.Version.minor = 0) :
    runMigrations ext wl bc =
      (removeShipper { bc with Container := renameWalks bc.Container }).map
        (fun bc3 => { bc3 with Container := pathSettings ext wl bc3.Container }) := by
  unfold runMigrations
  rw [if_pos hv]
  rfl

theorem removeShipper_of_gone (bc : BeatsConfig) (h : ShipperGone bc.Container) :
    removeShipper bc = some bc := by
  unfold removeShipper
  cases hc : bc.Container with
  | map r =>
    simp only
    cases hs : index r "shipper" with
    | map mmap => exact absurd hs (h r mmap hc)
    | _ => rfl
  | _ => rfl

theorem index_renameTls (l : Fields) : index (renameTls l) "tls" = Value.null := by
  unfold renameTls
  split
  · next h =>
    cases hi : index l "tls" with
    | null => rfl
    | _ => simp [hi, Value.isNull] at h
  · simp [index]

theorem renameWalks_of_tlsGone (c : Value) (h : TlsGone c) : renameWalks c = c := by
  cases c with
  | map r =>
    have key : ∀ (act : Fields → Fields) (last : List String),
        (∀ l, index l "tls" = Value.null → walk act ("tls" :: last) (Value.map l) = Value.map l) →
        walk act ("output" :: "logstash" :: "tls" :: last) (Value.map r) = Value.map r := by
      intro act last hact
      have e1 : walk act ("output" :: "logstash" :: "tls" :: last) (Value.map r)
          = Value.map (modify "output" (walk act ("logstash" :: "tls" :: last)) r) := by
        simp [walk]
      rw [e1, modify_of_fixed]
      intro w hw
      cases w with
      | map o =>
        have e2 : walk act ("logstash" :: "tls" :: last) (Value.map o)
            = Value.map (modify "logstash" (walk act ("tls" :: last)) o) := by
          simp [walk]
        rw [e2, modify_of_fixed]
        intro w2 hw2
        cases w2 with
        | map l => exact hact l (h r o l rfl hw hw2)
        | _ => exact walk_of_asMap_none _ _ _ (by simp)
      | _ => exact walk_of_asMap_none _ _ _ (by simp)
    unfold renameWalks
    rw [key renameSslProperties ["certificate_key"], key renameTls []]
    · intro l hl
      simp only [walk]
      unfold renameTls
      simp [hl, Value.isNull]
    · intro l hl
      simp only [walk]
      rw [modify_of_fixed]
      intro w hw
      have : w = Value.null := by simpa [index, hw] using hl
      subst this
      rfl
  | _ =>
    unfold renameWalks
    rw [walk_of_asMap_none renameSslProperties _ _ (by simp), walk_of_asMap_none _ _ _ (by simp)]

theorem tlsGone_renameWalks (c : Value) : TlsGone (renameWalks c) := by
  intro r2 o2 l2 hc ho hl
  cases c with
  | map r =>
    simp only [renameWalks, walk, Value.map.injEq] at hc
    subst hc
    simp only [findKey_modify_same, Option.map_map] at ho
    cases hfo : findKey "output" r with
    | none => simp [hfo] at ho
    | some w =>
      cases w with
      | map o =>
        simp only [hfo, Option.map_some', Function.comp, walk, Option.some.injEq,
          Value.map.injEq] at ho
        subst ho
        simp only [findKey_modify_same, Option.map_map] at hl
        cases hfl : findKey "logstash" o with
        | none => simp [hfl] at hl
        | some w2 =>
          cases w2 with
          | map l =>
            simp only [hfl, Option.map_some', Function.comp, walk, Option.some.injEq,
              Value.map.injEq] at hl
            subst hl
            exact index_renameTls _
          | _ => simp [hfl, walk] at hl
      | _ => simp [hfo, walk] at ho
  | _ => simp [renameWalks, walk] at hc

theorem removeShipper_asMap (bc : BeatsConfig) (m : Fields) (h : bc.Container.asMap? = some m) :
    ∃ c2 m2, removeShipper bc = some { bc with Container := c2 } ∧ c2.asMap? = some m2 ∧
      (∀ k, k ≠ "tags" → k ≠ "shipper" → findKey k m2 = findKey k m) ∧
      ∀ mmap, index m2 "shipper" ≠ Value.map mmap := by
  cases hc : bc.Container with
  | map r =>
    have hm : r = m := by simpa [hc, Value.asMap?] using h
    subst hm
    unfold removeShipper
    simp only [hc]
    cases hs : index r "shipper" with
    | map mmap =>
      refine ⟨Value.map (remove "shipper" (assign "tags" (index mmap "tags") r)), _, ?_, rfl, ?_, ?_⟩
      · simp [BeatsConfig.Set, setPath, Value.asMap?, hc, assertMap]
      · intro k h1 h2
        rw [findKey_remove_ne h2, findKey_assign_ne h1]
      · intro mm
        simp [index]
    | _ =>
      refine ⟨Value.map r, r, by rw [← hc], rfl, fun _ _ _ => rfl, ?_⟩
      intro mm
      rw [hs]
      simp
  | null =>
    have hm : m = [] := by simpa [hc, Value.asMap?] using h.symm
    subst hm
    refine ⟨Value.null, [], ?_, rfl, fun _ _ _ => rfl, ?_⟩
    · unfold removeShipper
      simp only [hc]
      rw [← hc]
    · intro mm
      simp [index]
  | _ => simp [hc, Value.asMap?] at h

theorem removeShipper_of_asMap_none (bc : BeatsConfig) (h : bc.Container.asMap? = none) :
    removeShipper bc = some bc := by
  apply removeShipper_of_gone
  intro r mmap hc
  simp [hc, Value.asMap?] at h

theorem pathSettings_of_asMap_none (ext : Externals) (wl : BeatsConfig) (c : Value)
    (h : c.asMap? = none) : pathSettings ext wl c = c := by
  simp [pathSettings, setPath, h]

theorem setPath_one_asMap (v : Value) (x : String) (n : Value) (pm : Fields)
    (h : n.asMap? = some pm) : setPath v [x] n = Value.map (assign x v pm) := by
  simp [setPath, h]

theorem setPath_one_map (v : Value) (x : String) (pm : Fields) :
    setPath v [x] (Value.map pm) = Value.map (assign x v pm) :=
  setPath_one_asMap v x _ pm rfl

theorem setPath_one_none (v : Value) (x : String) (n : Value)
    (h : n.asMap? = none) : setPath v [x] n = n := by
  simp [setPath, h]

theorem setPath_cons_asMap (v : Value) (k x : String) (xs : List String) (c : Value) (m : Fields)
    (h : c.asMap? = some m) :
    setPath v (k :: x :: xs) c = Value.map (assign k (setPath v (x :: xs) (index m k)) m) := by
  simp [setPath, h]

theorem setPath_cons_map (v : Value) (k x : String) (xs : List String) (m : Fields) :
    setPath v (k :: x :: xs) (Value.map m)
      = Value.map (assign k (setPath v (x :: xs) (index m k)) m) :=
  setPath_cons_asMap v k x xs _ m rfl

theorem setPath_of_asMap_none (v : Value) (p : List String) (c : Value)
    (h : c.asMap? = none) : setPath v p c = c := by
  match p with
  | [] => rfl
  | [k] => simp [setPath, h]
  | k :: x :: xs => simp [setPath, h]

theorem index_assign_same (k : String) (v : Value) (m : Fields) : index (assign k v m) k = v := by
  simp [index]

theorem index_assign_ne {k k2 : String} (h : k2 ≠ k) (v : Value) (m : Fields) :
    index (assign k v m) k2 = index m k2 := by
  simp [index, findKey_assign_ne h]

theorem pathSettings_asMap (ext : Externals) (wl : BeatsConfig) (c : Value) (m : Fields)
    (h : c.asMap? = some m) :
    ∃ r5, pathSettings ext wl c = Value.map r5 ∧
      (∀ k, k ≠ "path" → findKey k r5 = findKey k m) ∧
      pathSettings ext wl (Value.map r5) = Value.map r5 := by
  have hne : ("data" : String) ≠ "logs" := by decide
  -- the node under `path` after the two settings
  obtain ⟨n2, hn2, hfix1, hfix2⟩ : ∃ n2,
      setPath (Value.str wl.Context.UserConfig.LogPath) ["logs"]
        (setPath (Value.str (dataPath ext wl)) ["data"] (index m "path")) = n2 ∧
      setPath (Value.str (dataPath ext wl)) ["data"] n2 = n2 ∧
      setPath (Value.str wl.Context.UserConfig.LogPath) ["logs"] n2 = n2 := by
    cases hp : (index m "path").asMap? with
    | none =>
      refine ⟨index m "path", ?_, setPath_one_none _ _ _ hp, setPath_one_none _ _ _ hp⟩
      rw [setPath_one_none _ _ _ hp, setPath_one_none _ _ _ hp]
    | some pm =>
      refine ⟨_, rfl, ?_, ?_⟩
      · rw [setPath_one_asMap _ _ _ _ hp, setPath_one_map, setPath_one_map, assign_of_findKey]
        rw [findKey_assign_ne hne, findKey_assign_same]
      · rw [setPath_one_asMap _ _ _ _ hp, setPath_one_map, setPath_one_map, assign_of_findKey]
        rw [findKey_assign_same]
  have e1 : pathSettings ext wl c = Value.map (assign "path" n2
      (assign "path" (setPath (Value.str (dataPath ext wl)) ["data"] (index m "path")) m)) := by
    unfold pathSettings
    rw [setPath_cons_asMap _ _ _ _ c m h, setPath_cons_map, index_assign_same, hn2]
  refine ⟨_, e1, ?_, ?_⟩
  · intro k hk
    rw [findKey_assign_ne hk, findKey_assign_ne hk]
  · unfold pathSettings
    rw [setPath_cons_map, index_assign_same, hfix1, assign_of_findKey (findKey_assign_same _ _ _),
      setPath_cons_map, index_assign_same, hfix2, assign_of_findKey (findKey_assign_same _ _ _)]

/-- The result of one run at version 5.0: no panic, and a container on which the walks,
the shipper rule and the path settings all change nothing. -/
theorem runMigrations_settled (ext : Externals) (wl bc : BeatsConfig)
    (hv : wl.Version.major = 5 ∧ wl.Version.minor = 0) :
    ∃ bc1, runMigrations ext wl bc = some bc1 ∧ renameWalks bc1.Container = bc1.Container ∧
      removeShipper bc1 = some bc1 ∧ pathSettings ext wl bc1.Container = bc1.Container := by
  rw [runMigrations_eq ext wl bc hv]
  cases hm : (renameWalks bc.Container).asMap? with
  | none =>
    rw [removeShipper_of_asMap_none _ hm]
    refine ⟨_, rfl, ?_, ?_, ?_⟩
    · simp only [pathSettings_of_asMap_none ext wl _ hm]
      apply renameWalks_of_tlsGone
      exact tlsGone_renameWalks _
    · simp only [pathSettings_of_asMap_none ext wl _ hm]
      exact removeShipper_of_asMap_none _ hm
    · simp only [pathSettings_of_asMap_none ext wl _ hm]
  | some m =>
    obtain ⟨c2, m2, hrs, hc2, hframe, hship⟩ :=
      removeShipper_asMap { bc with Container := renameWalks bc.Container } m hm
    obtain ⟨r5, hp, hframe5, hfix⟩ := pathSettings_asMap ext wl c2 m2 hc2
    rw [hrs]
    refine ⟨_, rfl, ?_, ?_, ?_⟩
    · simp only [hp]
      apply renameWalks_of_tlsGone
      have hout : findKey "output" r5 = findKey "output" m := by
        rw [hframe5 _ (by decide), hframe _ (by decide) (by decide)]
      intro r3 o l hc ho hl
      have h3 : r5 = r3 := by simpa using hc
      subst h3
      rw [hout] at ho
      cases hw : renameWalks bc.Container with
      | map r0 =>
        have : r0 = m := by simpa [hw, Value.asMap?] using hm
        subst this
        exact (hw ▸ tlsGone_renameWalks bc.Container) r0 o l rfl ho hl
      | null =>
        have : m = [] := by simpa [hw, Value.asMap?] using hm.symm
        subst this
        simp at ho
      | _ => simp [hw, Value.asMap?] at hm
    · apply removeShipper_of_gone
      intro r3 mmap hc
      simp only [hp] at hc
      have h3 : r5 = r3 := by simpa using hc
      subst h3
      have : index r5 "shipper" = index m2 "shipper" := by
        simp [index, hframe5 "shipper" (by decide)]
      rw [this]
      exact hship mmap
    · simp only [hp, hfix]

/-- C2 (idempotence): at version 5.0.x, with the run, binary and log paths fixed, running
the migrations on the result of a first run returns that result unchanged; neither run
panics. -/
theorem runMigrations_idempotent (ext : Externals) (wl bc : BeatsConfig)
    (hv : wl.Version.major = 5 ∧ wl.Version.minor = 0) :
    ∃ bc1, runMigrations ext wl bc = some bc1 ∧ runMigrations ext wl bc1 = some bc1 := by
  obtain ⟨bc1, h1, hw, hs, hp⟩ := runMigrations_settled ext wl bc hv
  refine ⟨bc1, h1, ?_⟩
  rw [runMigrations_eq ext wl bc1 hv, hw]
  have e : ({ bc1 with Container := bc1.Container } : BeatsConfig) = bc1 := rfl
  rw [e, hs]
  simp only [Option.map_some', hp]

/-- Concrete instance: the tls tree at version 5.0.3. -/
theorem runMigrations_idempotent_witness :
    ((exampleConfig 5 0 3 tlsTree).Version.major = 5 ∧
        (exampleConfig 5 0 3 tlsTree).Version.minor = 0) ∧
      ∃ bc1, runMigrations exampleExternals (exampleConfig 5 0 3 tlsTree)
          (exampleConfig 5 0 3 tlsTree) = some bc1 ∧
        runMigrations exampleExternals (exampleConfig 5 0 3 tlsTree) bc1 = some bc1 :=
  ⟨by decide, runMigrations_idempotent _ _ _ (by decide)⟩


/-! ## Parse errors of input properties -/

theorem inputProperties_error_form (ext : Externals) (props : List (String × Value)) :
    ∀ (eventlogs : List Value) (msg : String),
      inputProperties ext props eventlogs = Except.error msg →
      ∃ value, ext.yamlUnmarshal (ext.PropertyString value 0) = none ∧
        msg = "Nested YAML is not parsable: \x27" ++ ext.sprint value ++ "\x27" := by
  induction props with
  | nil => intro eventlogs msg h; simp [inputProperties] at h
  | cons e rest ih =>
    intro eventlogs msg h
    obtain ⟨k, value⟩ := e
    simp only [inputProperties] at h
    cases hy : ext.yamlUnmarshal (ext.PropertyString value 0) with
    | none =>
      simp only [hy, Except.error.injEq] at h
      exact ⟨value, hy, h.symm⟩
    | some vt =>
      simp only [hy] at h
      exact ih _ _ h

theorem inputProperties_fails (ext : Externals) (props : List (String × Value))
    (e : String × Value) (he : e ∈ props)
    (hp : ext.yamlUnmarshal (ext.PropertyString e.2 0) = none) :
    ∀ eventlogs, ∃ msg, inputProperties ext props eventlogs = Except.error msg := by
  induction props with
  | nil => simp at he
  | cons e2 rest ih =>
    intro eventlogs
    obtain ⟨k, value⟩ := e2
    simp only [inputProperties]
    cases hy : ext.yamlUnmarshal (ext.PropertyString value 0) with
    | none => exact ⟨_, rfl⟩
    | some vt =>
      rcases List.mem_cons.mp he with h | h
      · subst h
        simp [hy] at hp
      · exact ih h _

theorem inputsLoop_error_form (ext : Externals) (inputs : List ResponseCollectorEntry) :
    ∀ (eventlogs : List Value) (msg : String),
      inputsLoop ext inputs eventlogs = Except.error msg →
      ∃ value, ext.yamlUnmarshal (ext.PropertyString value 0) = none ∧
        msg = "Nested YAML is not parsable: \x27" ++ ext.sprint value ++ "\x27" := by
  induction inputs with
  | nil => intro eventlogs msg h; simp [inputsLoop] at h
  | cons input rest ih =>
    intro eventlogs msg h
    simp only [inputsLoop] at h
    by_cases hb : input.Backend = "winlogbeat"
    · simp only [hb, if_true] at h
      cases hi : inputProperties ext input.Properties eventlogs with
      | error m =>
        simp only [hi, Except.error.injEq] at h
        subst h
        exact inputProperties_error_form ext _ _ _ hi
      | ok ev2 =>
        simp only [hi] at h
        exact ih _ _ h
    · simp only [hb, if_false] at h
      exact ih _ _ h

theorem inputsLoop_fails (ext : Externals) (inputs : List ResponseCollectorEntry)
    (input : ResponseCollectorEntry) (hin : input ∈ inputs) (hb : input.Backend = "winlogbeat")
    (e : String × Value) (he : e ∈ input.Properties)
    (hp : ext.yamlUnmarshal (ext.PropertyString e.2 0) = none) :
    ∀ eventlogs, ∃ msg, inputsLoop ext inputs eventlogs = Except.error msg := by
  induction inputs with
  | nil => simp at hin
  | cons i2 rest ih =>
    intro eventlogs
    simp only [inputsLoop]
    rcases List.mem_cons.mp hin with h | h
    · subst h
      obtain ⟨msg, hm⟩ := inputProperties_fails ext _ e he hp eventlogs
      simp only [hb, if_true, hm]
      exact ⟨_, rfl⟩
    · by_cases hb2 : i2.Backend = "winlogbeat"
      · simp only [hb2, if_true]
        cases hi : inputProperties ext i2.Properties eventlogs with
        | error m => exact ⟨_, rfl⟩
        | ok ev2 => exact ih h _
      · simp only [hb2, if_false]
        exact ih h _

/-- C3 (malformed input): when some input of backend "winlogbeat" has a property value
whose text does not parse as a list, `RenderOnChange` returns false without a panic, the
status is the error status with a message naming a value that does not parse, the active
configuration (container and snippets) is the one before the call and no file write is
made, whatever else the response holds. -/
theorem RenderOnChange_parse_failure (ext : Externals) (disk : Disk)
    (response : ResponseCollectorConfiguration) (sys : System)
    (input : ResponseCollectorEntry) (hin : input ∈ response.Inputs)
    (hb : input.Backend = "winlogbeat")
    (e : String × Value) (he : e ∈ input.Properties)
    (hp : ext.yamlUnmarshal (ext.PropertyString e.2 0) = none) :
    ∃ value, ext.yamlUnmarshal (ext.PropertyString value 0) = none ∧
      RenderOnChange ext disk response sys =
        some (false,
          { wlbc :=
              { Beats := sys.wlbc.Beats
                Status := some (ext.StatusError,
                  "Nested YAML is not parsable: \x27" ++ ext.sprint value ++ "\x27") }
            writes := sys.writes }) := by
  obtain ⟨msg, hm⟩ := inputsLoop_fails ext response.Inputs input hin hb e he hp []
  obtain ⟨value, hv, hmsg⟩ := inputsLoop_error_form ext _ _ _ hm
  refine ⟨value, hv, ?_⟩
  unfold RenderOnChange candidate
  simp only [hm, WinLogBeatConfig.SetStatus, hmsg]

/-- Concrete instance: an input property `not-a-list`. -/
theorem RenderOnChange_parse_failure_witness :
    exampleExternals.yamlUnmarshal
        (exampleExternals.PropertyString (Value.str "not-a-list") 0) = none ∧
      ∃ value, exampleExternals.yamlUnmarshal (exampleExternals.PropertyString value 0) = none ∧
        RenderOnChange exampleExternals goodDisk malformedResponse (exampleSystem 5 0 0) =
          some (false,
            { wlbc :=
                { Beats := (exampleSystem 5 0 0).wlbc.Beats
                  Status := some (exampleExternals.StatusError,
                    "Nested YAML is not parsable: \x27" ++ exampleExternals.sprint value ++ "\x27") }
              writes := (exampleSystem 5 0 0).writes }) :=
  ⟨rfl,
    RenderOnChange_parse_failure exampleExternals goodDisk malformedResponse (exampleSystem 5 0 0)
      { Backend := "winlogbeat", Type_ := "windows-event-log",
        Properties := [("event", Value.str "not-a-list")] }
      (List.mem_singleton.mpr rfl) rfl ("event", Value.str "not-a-list")
      (List.mem_singleton.mpr rfl) rfl⟩


/-! ## Totality -/

theorem runMigrations_total (ext : Externals) (wl bc : BeatsConfig) :
    ∃ bc1, runMigrations ext wl bc = some bc1 := by
  by_cases hv : wl.Version.major = 5 ∧ wl.Version.minor = 0
  · obtain ⟨bc1, h, _⟩ := runMigrations_settled ext wl bc hv
    exact ⟨bc1, h⟩
  · exact ⟨bc, by unfold runMigrations; rw [if_neg hv]⟩

theorem Render_total (ext : Externals) (wlbc : WinLogBeatConfig) :
    ∃ r, Render ext wlbc = some r := by
  unfold Render
  split
  · exact ⟨_, rfl⟩
  · obtain ⟨bc1, h⟩ := runMigrations_total ext wlbc.Beats wlbc.Beats
    exact ⟨_, by rw [h]; rfl⟩

theorem RenderToFile_total (ext : Externals) (disk : Disk) (sys : System) :
    ∃ r, RenderToFile ext disk sys = some r := by
  unfold RenderToFile
  obtain ⟨r, h⟩ := Render_total ext sys.wlbc
  exact ⟨_, by rw [h]; rfl⟩

/-- The backend object left by `RenderToFile` is the one left by `Render`, whatever the
disk answers. -/
theorem RenderToFile_wlbc (ext : Externals) (disk : Disk) (sys : System) :
    (RenderToFile ext disk sys).map (fun r => r.2.wlbc) = (Render ext sys.wlbc).map (fun r => r.2) := by
  unfold RenderToFile
  cases Render ext sys.wlbc with
  | none => rfl
  | some r =>
    simp only [Option.map_some']
    cases disk.createPathToFile r.2.Beats.UserConfig.ConfigurationPath <;> rfl

/-- C8 (change detection): for a response without parse errors, `RenderOnChange` returns
without a panic, and it returns true exactly when `Equals` finds the candidate different
from the active configuration; when they are equal the system is left as it was: same
active configuration, no migration run, nothing written. -/
theorem RenderOnChange_change_detection (ext : Externals) (disk : Disk)
    (response : ResponseCollectorConfiguration) (sys : System) (newConfig : BeatsConfig)
    (hc : candidate ext sys.wlbc.Beats response = Except.ok newConfig) :
    ∃ sys2, RenderOnChange ext disk response sys
        = some (!sys.wlbc.Beats.Equals newConfig, sys2) ∧
      (sys.wlbc.Beats.Equals newConfig = true → sys2 = sys) := by
  unfold RenderOnChange
  simp only [hc]
  cases he : sys.wlbc.Beats.Equals newConfig with
  | true => exact ⟨sys, by simp, fun _ => rfl⟩
  | false =>
    obtain ⟨r, hr⟩ := RenderToFile_total ext disk
      { sys with wlbc := { sys.wlbc with Beats := sys.wlbc.Beats.Update newConfig } }
    exact ⟨r.2, by simp [hr], fun h => by simp at h⟩

/-- C9 (write failure), for every response and system: the boolean returned by
`RenderOnChange` and the backend object it leaves, status included, are the same on a disk
where directory creation or the write fails as on a disk where both succeed; the error
returned by `RenderToFile` reaches neither. -/
theorem RenderOnChange_ignores_write_error (ext : Externals) (disk disk2 : Disk)
    (response : ResponseCollectorConfiguration) (sys : System) :
    (RenderOnChange ext disk response sys).map (fun r => (r.1, r.2.wlbc))
      = (RenderOnChange ext disk2 response sys).map (fun r => (r.1, r.2.wlbc)) := by
  unfold RenderOnChange
  cases candidate ext sys.wlbc.Beats response with
  | error msg => rfl
  | ok newConfig =>
    simp only
    cases sys.wlbc.Beats.Equals newConfig with
    | true => rfl
    | false =>
      have h1 := RenderToFile_wlbc ext disk
        { sys with wlbc := { sys.wlbc with Beats := sys.wlbc.Beats.Update newConfig } }
      have h2 := RenderToFile_wlbc ext disk2
        { sys with wlbc := { sys.wlbc with Beats := sys.wlbc.Beats.Update newConfig } }
      simp only [Bool.not_false, if_true, Option.map_map, Function.comp]
      cases hr1 : RenderToFile ext disk
          { sys with wlbc := { sys.wlbc with Beats := sys.wlbc.Beats.Update newConfig } } with
      | none =>
        rw [hr1] at h1
        cases hr2 : RenderToFile ext disk2
            { sys with wlbc := { sys.wlbc with Beats := sys.wlbc.Beats.Update newConfig } } with
        | none => rfl
        | some r2 => rw [hr2, ← h1] at h2; simp at h2
      | some r1 =>
        rw [hr1] at h1
        cases hr2 : RenderToFile ext disk2
            { sys with wlbc := { sys.wlbc with Beats := sys.wlbc.Beats.Update newConfig } } with
        | none => rw [hr2, ← h1] at h2; simp at h2
        | some r2 =>
          rw [hr2, ← h1] at h2
          simp only [Option.map_some', Option.some.injEq] at h2 ⊢
          show (true, r1.2.wlbc) = (true, r2.2.wlbc)
          rw [h2]

/-- Concrete instance: the example response on a fresh system. -/
theorem RenderOnChange_change_detection_witness :
    (∃ newConfig, candidate exampleExternals (freshSystem 4 2 0).wlbc.Beats exampleResponse
        = Except.ok newConfig ∧
      ∃ sys2, RenderOnChange exampleExternals goodDisk exampleResponse (freshSystem 4 2 0)
          = some (!(freshSystem 4 2 0).wlbc.Beats.Equals newConfig, sys2) ∧
        ((freshSystem 4 2 0).wlbc.Beats.Equals newConfig = true → sys2 = freshSystem 4 2 0)) :=
  ⟨_, rfl, RenderOnChange_change_detection exampleExternals goodDisk exampleResponse
    (freshSystem 4 2 0) _ rfl⟩


/-! ## `Set` followed by `Get` -/

theorem getPath_nonempty_null (k : String) (rest : List String) :
    getPath (k :: rest) Value.null = none := rfl

theorem getPath_cons_of_asMap (k : String) (rest : List String) (t : Value) (m : Fields)
    (h : t.asMap? = some m) :
    getPath (k :: rest) t = (findKey k m).bind (getPath rest) := by
  cases t with
  | map r =>
    have : r = m := by simpa [Value.asMap?] using h
    subst this
    rfl
  | null =>
    have : m = [] := by simpa [Value.asMap?] using h.symm
    subst this
    rfl
  | _ => simp [Value.asMap?] at h

theorem getPath_index (k k2 : String) (rest : List String) (m : Fields) :
    (findKey k m).bind (getPath (k2 :: rest)) = getPath (k2 :: rest) (index m k) := by
  cases h : findKey k m with
  | none => simp [index, h, getPath]
  | some w => simp [index, h]

/-- A write at a path is read back at that path, when the write reaches its last segment. -/
theorem getPath_setPath_same (v : Value) :
    ∀ (p : List String) (t : Value), p ≠ [] → settable p t = true →
      getPath p (setPath v p t) = some v := by
  intro p
  induction p with
  | nil => intro t h; exact absurd rfl h
  | cons k rest ih =>
    intro t _ hs
    cases rest with
    | nil =>
      cases hm : t.asMap? with
      | none => simp [settable, hm] at hs
      | some m =>
        rw [setPath_one_asMap v k t m hm]
        simp [getPath]
    | cons k2 rest2 =>
      cases hm : t.asMap? with
      | none => simp [settable, hm] at hs
      | some m =>
        rw [setPath_cons_asMap v k k2 rest2 t m hm]
        simp only [settable, hm] at hs
        simp only [getPath, findKey_assign_same, Option.some_bind]
        exact ih _ (by simp) hs

/-- A write at a path leaves what is read at a path that branches off it. -/
theorem getPath_setPath_branch (v : Value) (a b : String) (hab : a ≠ b)
    (p2 q2 : List String) :
    ∀ (c : List String) (t : Value),
      getPath (c ++ b :: q2) (setPath v (c ++ a :: p2) t) = getPath (c ++ b :: q2) t := by
  intro c
  induction c with
  | nil =>
    intro t
    cases hm : t.asMap? with
    | none => rw [setPath_of_asMap_none v _ t hm]
    | some m =>
      simp only [List.nil_append]
      rw [getPath_cons_of_asMap b q2 t m hm]
      cases p2 with
      | nil =>
        rw [setPath_one_asMap v a t m hm]
        simp [getPath, findKey_assign_ne (Ne.symm hab)]
      | cons x xs =>
        rw [setPath_cons_asMap v a x xs t m hm]
        simp [getPath, findKey_assign_ne (Ne.symm hab)]
  | cons k rest ih =>
    intro t
    cases hm : t.asMap? with
    | none => rw [setPath_of_asMap_none v _ t hm]
    | some m =>
      have e1 : (k :: rest) ++ a :: p2 = k :: (rest ++ a :: p2) := rfl
      have e2 : (k :: rest) ++ b :: q2 = k :: (rest ++ b :: q2) := rfl
      rw [e1, e2, getPath_cons_of_asMap k _ t m hm]
      obtain ⟨x, xs, hx⟩ : ∃ x xs, rest ++ a :: p2 = x :: xs := by
        cases rest with
        | nil => exact ⟨a, p2, rfl⟩
        | cons y ys => exact ⟨y, ys ++ a :: p2, rfl⟩
      obtain ⟨y, ys, hy⟩ : ∃ y ys, rest ++ b :: q2 = y :: ys := by
        cases rest with
        | nil => exact ⟨b, q2, rfl⟩
        | cons y ys => exact ⟨y, ys ++ b :: q2, rfl⟩
      rw [hx, setPath_cons_asMap v k x xs t m hm]
      simp only [getPath, findKey_assign_same, Option.some_bind]
      rw [← hx, ih (index m k), hy, getPath_index]

theorem setPath_asMap_isSome (v : Value) (p : List String) (t : Value) (hp : p ≠ [])
    (h : t.asMap?.isSome = true) : (setPath v p t).asMap?.isSome = true := by
  obtain ⟨m, hm⟩ := Option.isSome_iff_exists.mp h
  match p with
  | [] => exact absurd rfl hp
  | [k] => rw [setPath_one_asMap v k t m hm]; rfl
  | k :: x :: xs => rw [setPath_cons_asMap v k x xs t m hm]; rfl

/-- A write keeps writable every path that is not longer than the path written. -/
theorem settable_setPath (v : Value) :
    ∀ (q p : List String) (t : Value), q.length ≤ p.length → settable q t = true →
      settable q (setPath v p t) = true := by
  intro q
  induction q with
  | nil => intro p t _ _; rfl
  | cons k rest ih =>
    intro p t hlen hs
    cases rest with
    | nil =>
      have hp : p ≠ [] := by
        intro h
        subst h
        simp at hlen
      simp only [settable] at hs ⊢
      exact setPath_asMap_isSome v p t hp hs
    | cons k2 rest2 =>
      match p, hlen with
      | [], hlen => simp at hlen
      | [a], hlen => simp at hlen
      | a :: b :: ps, hlen =>
        cases hm : t.asMap? with
        | none => simp [settable, hm] at hs
        | some m =>
          rw [setPath_cons_asMap v a b ps t m hm]
          simp only [settable, hm] at hs
          simp only [settable, Value.asMap?]
          by_cases hka : k = a
          · subst hka
            rw [index_assign_same]
            exact ih (b :: ps) (index m k) (by simpa using hlen) hs
          · rw [index_assign_ne hka]
            exact hs

theorem getPath_append (p q : List String) :
    ∀ t, getPath (p ++ q) t = (getPath p t).bind (getPath q) := by
  induction p with
  | nil => intro t; simp [getPath]
  | cons k rest ih =>
    intro t
    cases t with
    | map m =>
      simp only [List.cons_append, getPath]
      cases findKey k m with
      | none => rfl
      | some w => simp [ih]
    | _ => simp [getPath]

theorem getPath_setPath_root (v : Value) (a b : String) (hab : a ≠ b) (p q : List String)
    (t : Value) : getPath (b :: q) (setPath v (a :: p) t) = getPath (b :: q) t :=
  getPath_setPath_branch v a b hab p q [] t

/-- A write of `output.<ty>.<p>...` leaves what is read at `output.<t>.<k>...` when the type
or the key differs. -/
theorem getPath_setPath_output (v : Value) (ty p t k : String) (ps q : List String) (c : Value)
    (h : ty ≠ t ∨ p ≠ k) :
    getPath ("output" :: t :: k :: q) (setPath v ("output" :: ty :: p :: ps) c)
      = getPath ("output" :: t :: k :: q) c := by
  by_cases h1 : ty = t
  · subst h1
    have h2 : p ≠ k := by
      rcases h with h | h
      · exact absurd rfl h
      · exact h
    exact getPath_setPath_branch v p k h2 ps q ["output", ty] c
  · exact getPath_setPath_branch v ty t h1 (p :: ps) (k :: q) ["output"] c

/-! ## The loops of `RenderOnChange`, as sequences of writes -/

theorem copyProperties_cons (ty : String) (e : String × Value) (props : List (String × Value))
    (bc : BeatsConfig) :
    copyProperties ty (e :: props) bc =
      copyProperties ty props
        (if tlsProperty e.1 then bc else bc.Set e.2 ["output", ty, e.1]) := by
  simp only [copyProperties, List.foldl_cons, tlsProperty]

theorem copyProperties_append (ty : String) (pre post : List (String × Value))
    (bc : BeatsConfig) :
    copyProperties ty (pre ++ post) bc = copyProperties ty post (copyProperties ty pre bc) := by
  simp only [copyProperties, List.foldl_append]

theorem copyProperties_induct (P : Value → Prop) (ty : String) (props : List (String × Value))
    (hstep : ∀ e, e ∈ props → ¬ tlsProperty e.1 → ∀ c, P c →
      P (setPath e.2 ["output", ty, e.1] c)) :
    ∀ bc : BeatsConfig, P bc.Container → P (copyProperties ty props bc).Container := by
  induction props with
  | nil => intro bc h; exact h
  | cons e rest ih =>
    intro bc h
    rw [copyProperties_cons]
    apply ih (fun e2 he2 => hstep e2 (List.mem_cons_of_mem _ he2))
    by_cases ht : tlsProperty e.1
    · rw [if_pos ht]; exact h
    · rw [if_neg ht]
      exact hstep e (List.mem_cons_self _ _) ht _ h

theorem projectTls_induct (P : Value → Prop) (ext : Externals) (props : Fields)
    (hstep : ∀ X, X ∈ tlsKeys → ∀ v c, P c →
      P (setPath v ["output", "logstash", "tls", X] c)) :
    ∀ bc : BeatsConfig, P bc.Container → P (projectTls ext props bc).Container := by
  intro bc h
  have step : ∀ (b : Bool) (v : Value) (X : String), X ∈ tlsKeys → ∀ c : BeatsConfig,
      P c.Container →
      P (if b = true then c.Set v ["output", "logstash", "tls", X] else c).Container := by
    intro b v X hX c hc
    cases b with
    | true => exact hstep X hX v _ hc
    | false => exact hc
  unfold projectTls
  by_cases ht : ext.PropertyBool (index props "tls") = true
  · rw [if_pos ht]
    simp only []
    apply step _ _ _ (by simp [tlsKeys])
    apply step _ _ _ (by simp [tlsKeys])
    apply step _ _ _ (by simp [tlsKeys])
    apply step _ _ _ (by simp [tlsKeys])
    exact h
  · rw [if_neg ht]; exact h

theorem outputsLoop_cons (ext : Externals) (output : ResponseCollectorEntry)
    (outputs : List ResponseCollectorEntry) (bc : BeatsConfig) :
    outputsLoop ext (output :: outputs) bc =
      outputsLoop ext outputs
        (if output.Backend = "winlogbeat" then
          projectTls ext output.Properties (copyProperties output.Type_ output.Properties bc)
        else bc) := by
  simp only [outputsLoop, List.foldl_cons]

theorem outputsLoop_append (ext : Externals) (before after : List ResponseCollectorEntry)
    (bc : BeatsConfig) :
    outputsLoop ext (before ++ after) bc = outputsLoop ext after (outputsLoop ext before bc) := by
  simp only [outputsLoop, List.foldl_append]

theorem outputsLoop_induct (P : Value → Prop) (ext : Externals)
    (outputs : List ResponseCollectorEntry)
    (hcopy : ∀ o, o ∈ outputs → o.Backend = "winlogbeat" → ∀ e, e ∈ o.Properties →
      ¬ tlsProperty e.1 → ∀ c, P c → P (setPath e.2 ["output", o.Type_, e.1] c))
    (htls : ∀ X, X ∈ tlsKeys → ∀ v c, P c →
      P (setPath v ["output", "logstash", "tls", X] c)) :
    ∀ bc : BeatsConfig, P bc.Container → P (outputsLoop ext outputs bc).Container := by
  induction outputs with
  | nil => intro bc h; exact h
  | cons o rest ih =>
    intro bc h
    rw [outputsLoop_cons]
    apply ih (fun o2 ho2 => hcopy o2 (List.mem_cons_of_mem _ ho2))
    by_cases hb : o.Backend = "winlogbeat"
    · rw [if_pos hb]
      apply projectTls_induct P ext _ htls
      exact copyProperties_induct P _ _ (hcopy o (List.mem_cons_self _ _) hb) _ h
    · rw [if_neg hb]; exact h

theorem snippetsLoop_container (snippets : List ResponseCollectorSnippet) :
    ∀ bc : BeatsConfig, (snippetsLoop snippets bc).Container = bc.Container := by
  induction snippets with
  | nil => intro bc; rfl
  | cons s rest ih =>
    intro bc
    simp only [snippetsLoop, List.foldl_cons] at ih ⊢
    rw [ih]
    by_cases hb : s.Backend = "winlogbeat"
    · rw [if_pos hb]; rfl
    · rw [if_neg hb]

/-- The container of the candidate: the event logs and the name written over the result of
the loop over the outputs. -/
theorem candidate_container (ext : Externals) (active : BeatsConfig)
    (response : ResponseCollectorConfiguration) (newConfig : BeatsConfig)
    (hc : candidate ext active response = Except.ok newConfig) :
    ∃ eventlogs, inputsLoop ext response.Inputs [] = Except.ok eventlogs ∧
      newConfig.Container =
        (if active.Version.major ≥ 5 then
          setPath (Value.str active.Context.CollectorId) ["name"]
            (setPath (Value.list eventlogs) ["winlogbeat", "event_logs"]
              (outputsLoop ext response.Outputs (seedConfig active)).Container)
        else
          setPath (Value.list eventlogs) ["winlogbeat", "event_logs"]
            (outputsLoop ext response.Outputs (seedConfig active)).Container) := by
  unfold candidate at hc
  cases hi : inputsLoop ext response.Inputs [] with
  | error msg => simp [hi] at hc
  | ok eventlogs =>
    simp only [hi, Except.ok.injEq] at hc
    refine ⟨eventlogs, rfl, ?_⟩
    subst hc
    by_cases hv : active.Version.major ≥ 5
    · simp only [if_pos hv, BeatsConfig.Set, snippetsLoop_container]
      rfl
    · simp only [if_neg hv, BeatsConfig.Set, snippetsLoop_container]
      rfl

/-- What the candidate holds under `output` is what the loop over the outputs left there. -/
theorem candidate_output (ext : Externals) (active : BeatsConfig)
    (response : ResponseCollectorConfiguration) (newConfig : BeatsConfig)
    (hc : candidate ext active response = Except.ok newConfig) (q : List String) :
    getPath ("output" :: q) newConfig.Container =
      getPath ("output" :: q) (outputsLoop ext response.Outputs (seedConfig active)).Container := by
  obtain ⟨eventlogs, _, h⟩ := candidate_container ext active response newConfig hc
  rw [h]
  by_cases hv : active.Version.major ≥ 5
  · rw [if_pos hv, getPath_setPath_root _ _ _ (by decide), getPath_setPath_root _ _ _ (by decide)]
  · rw [if_neg hv, getPath_setPath_root _ _ _ (by decide)]

theorem seedConfig_output (active : BeatsConfig) (q : List String) :
    getPath ("output" :: q) (seedConfig active).Container = none := by
  simp only [seedConfig, BeatsConfig.Set, NewCollectorConfig]
  rw [getPath_setPath_root _ _ _ (by decide)]
  rfl

theorem seedConfig_settable (active : BeatsConfig) (y z : String) :
    settable ["output", y, z] (seedConfig active).Container = true := by
  simp [seedConfig, BeatsConfig.Set, NewCollectorConfig, setPath, settable, Value.asMap?, assign,
    index, findKey]

theorem outputsLoop_settable (ext : Externals) (outputs : List ResponseCollectorEntry)
    (bc : BeatsConfig) (h : ∀ y z, settable ["output", y, z] bc.Container = true) :
    ∀ y z, settable ["output", y, z] (outputsLoop ext outputs bc).Container = true := by
  apply outputsLoop_induct (fun c => ∀ y z, settable ["output", y, z] c = true) ext outputs
    _ _ bc h
  · intro o _ _ e _ _ c hc y z
    exact settable_setPath _ _ _ _ (by simp) (hc y z)
  · intro X _ v c hc y z
    exact settable_setPath _ _ _ _ (by simp) (hc y z)

theorem copyProperties_settable (ty : String) (props : List (String × Value))
    (bc : BeatsConfig) (h : ∀ y z, settable ["output", y, z] bc.Container = true) :
    ∀ y z, settable ["output", y, z] (copyProperties ty props bc).Container = true := by
  apply copyProperties_induct (fun c => ∀ y z, settable ["output", y, z] c = true) ty props
    _ bc h
  intro e _ _ c hc y z
  exact settable_setPath _ _ _ _ (by simp) (hc y z)

/-- C6 (generic copy with filtering): for an output of backend "winlogbeat" and type `t` of
a response without parse errors, every property `p` outside `tls`, `ca_file`, `cert_file`,
`cert_key_file`, `tls_insecure` is in the candidate at `output.t.p` with its value, when no
later matching output of the same type has a property `p`; and `ca_file`, `cert_file`,
`cert_key_file`, `tls_insecure` are not keys of `output.t` in the candidate.  The
properties of an output, a Go map, bind each name once. -/
theorem candidate_generic_copy (ext : Externals) (active : BeatsConfig)
    (response : ResponseCollectorConfiguration) (newConfig : BeatsConfig)
    (hc : candidate ext active response = Except.ok newConfig)
    (before after : List ResponseCollectorEntry) (output : ResponseCollectorEntry)
    (hsplit : response.Outputs = before ++ output :: after)
    (hb : output.Backend = "winlogbeat")
    (hnodup : (output.Properties.map Prod.fst).Nodup) :
    (∀ p v, (p, v) ∈ output.Properties → ¬ tlsProperty p →
      (∀ o, o ∈ after → o.Backend = "winlogbeat" → o.Type_ = output.Type_ →
        ∀ e, e ∈ o.Properties → e.1 ≠ p) →
      getPath ["output", output.Type_, p] newConfig.Container = some v) ∧
    (∀ k, k ∈ ["ca_file", "cert_file", "cert_key_file", "tls_insecure"] →
      getPath ["output", output.Type_, k] newConfig.Container = none) := by
  constructor
  · intro p v hp hnt hlater
    rw [candidate_output ext active response newConfig hc, hsplit, outputsLoop_append,
      outputsLoop_cons, if_pos hb]
    obtain ⟨pre, post, hprops⟩ := List.append_of_mem hp
    have hpost : ∀ e, e ∈ post → e.1 ≠ p := by
      intro e he heq
      rw [hprops, List.map_append, List.map_cons] at hnodup
      have h1 := (List.nodup_append.mp hnodup).2.1
      have h2 := (List.nodup_cons.mp h1).1
      have h3 : e.1 ∈ List.map Prod.fst post := List.mem_map_of_mem Prod.fst he
      rw [heq] at h3
      exact h2 h3
    -- the writes that follow the one of `p` leave `output.t.p` as it is
    apply outputsLoop_induct
      (fun c => getPath ["output", output.Type_, p] c = some v) ext after
    · intro o ho hob e he hnte c hcv
      rw [getPath_setPath_output]
      · exact hcv
      · by_cases hty : o.Type_ = output.Type_
        · exact Or.inr (hlater o ho hob hty e he)
        · exact Or.inl hty
    · intro X _ w c hcv
      rw [getPath_setPath_output]
      · exact hcv
      · exact Or.inr (fun h => hnt (Or.inl h.symm))
    apply projectTls_induct (fun c => getPath ["output", output.Type_, p] c = some v)
    · intro X _ w c hcv
      rw [getPath_setPath_output]
      · exact hcv
      · exact Or.inr (fun h => hnt (Or.inl h.symm))
    rw [hprops, copyProperties_append, copyProperties_cons, if_neg hnt]
    apply copyProperties_induct (fun c => getPath ["output", output.Type_, p] c = some v)
    · intro e he _ c hcv
      rw [getPath_setPath_output]
      · exact hcv
      · exact Or.inr (hpost e he)
    -- the write of `p` itself
    apply getPath_setPath_same _ _ _ (by simp)
    apply copyProperties_settable
    apply outputsLoop_settable
    exact seedConfig_settable active
  · intro k hk
    have hkn : k ≠ "tls" := by
      intro h
      subst h
      simp at hk
    rw [candidate_output ext active response newConfig hc]
    apply outputsLoop_induct
      (fun c => getPath ["output", output.Type_, k] c = none) ext response.Outputs
    · intro o _ _ e _ hnte c hcv
      rw [getPath_setPath_output]
      · exact hcv
      · refine Or.inr (fun h => hnte ?_)
        rw [h]
        simp only [List.mem_cons, List.mem_singleton, List.not_mem_nil, or_false] at hk
        exact Or.inr hk
    · intro X _ w c hcv
      rw [getPath_setPath_output]
      · exact hcv
      · exact Or.inr (Ne.symm hkn)
    · exact seedConfig_output active _

/-- Concrete instance: the filtering example, whose output keeps `hosts`
under `output.logstash` and none of the four filtered keys. -/
theorem candidate_generic_copy_witness :
    ∃ newConfig,
      candidate exampleExternals (exampleConfig 5 0 0 (Value.map [])) filteringResponse
        = Except.ok newConfig ∧
      ((∀ p v, (p, v) ∈
          [("hosts", Value.list [Value.str "graylog:5044"]), ("tls", Value.bool true),
            ("ca_file", Value.str "/etc/ca.pem"), ("cert_file", Value.str "/etc/cert.pem"),
            ("cert_key_file", Value.str "/etc/key.pem"), ("tls_insecure", Value.bool true)] →
          ¬ tlsProperty p →
          (∀ o, o ∈ ([] : List ResponseCollectorEntry) → o.Backend = "winlogbeat" →
            o.Type_ = "logstash" → ∀ e, e ∈ o.Properties → e.1 ≠ p) →
          getPath ["output", "logstash", p] newConfig.Container = some v) ∧
        (∀ k, k ∈ ["ca_file", "cert_file", "cert_key_file", "tls_insecure"] →
          getPath ["output", "logstash", k] newConfig.Container = none)) :=
  ⟨_, rfl,
    candidate_generic_copy exampleExternals (exampleConfig 5 0 0 (Value.map []))
      filteringResponse _ rfl [] []
      { Backend := "winlogbeat", Type_ := "logstash",
        Properties :=
          [("hosts", Value.list [Value.str "graylog:5044"]), ("tls", Value.bool true),
            ("ca_file", Value.str "/etc/ca.pem"), ("cert_file", Value.str "/etc/cert.pem"),
            ("cert_key_file", Value.str "/etc/key.pem"), ("tls_insecure", Value.bool true)] }
      rfl rfl (by decide)⟩

/-! ## The tls settings of an output -/

theorem outputsLoop_filter (ext : Externals) (outputs : List ResponseCollectorEntry) :
    ∀ bc, outputsLoop ext outputs bc = outputsLoop ext (outputs.filter matchesBackend) bc := by
  induction outputs with
  | nil => intro bc; rfl
  | cons o rest ih =>
    intro bc
    by_cases hb : o.Backend = "winlogbeat"
    · have : matchesBackend o = true := by simp [matchesBackend, hb]
      rw [List.filter_cons_of_pos this, outputsLoop_cons, outputsLoop_cons, ih]
    · have : ¬ matchesBackend o = true := by simp [matchesBackend, hb]
      rw [List.filter_cons_of_neg this, outputsLoop_cons, if_neg hb, ih]

theorem removeShipper_fields (bc bc1 : BeatsConfig) (h : removeShipper bc = some bc1) :
    bc1.Context = bc.Context ∧ bc1.UserConfig = bc.UserConfig ∧ bc1.Version = bc.Version ∧
      bc1.Snippets = bc.Snippets := by
  cases hm : bc.Container.asMap? with
  | none =>
    rw [removeShipper_of_asMap_none bc hm] at h
    cases h
    exact ⟨rfl, rfl, rfl, rfl⟩
  | some m =>
    obtain ⟨c2, m2, hr, _⟩ := removeShipper_asMap bc m hm
    rw [hr] at h
    cases h
    exact ⟨rfl, rfl, rfl, rfl⟩

theorem runMigrations_fields (ext : Externals) (wl bc bc1 : BeatsConfig)
    (h : runMigrations ext wl bc = some bc1) :
    bc1.Context = bc.Context ∧ bc1.UserConfig = bc.UserConfig ∧ bc1.Version = bc.Version ∧
      bc1.Snippets = bc.Snippets := by
  by_cases hv : wl.Version.major = 5 ∧ wl.Version.minor = 0
  · rw [runMigrations_eq ext wl bc hv] at h
    cases hr : removeShipper { bc with Container := renameWalks bc.Container } with
    | none => simp [hr] at h
    | some bc3 =>
      have hf := removeShipper_fields _ _ hr
      simp only [hr, Option.map_some', Option.some.injEq] at h
      subst h
      exact hf
  · unfold runMigrations at h
    rw [if_neg hv] at h
    cases h
    exact ⟨rfl, rfl, rfl, rfl⟩

theorem shipperGone_of_removeShipper_fixed (bc : BeatsConfig) (h : removeShipper bc = some bc) :
    ShipperGone bc.Container := by
  intro r mmap hc hs
  have hm : bc.Container.asMap? = some r := by rw [hc]; rfl
  unfold removeShipper at h
  simp only [hc, hs, BeatsConfig.Set, setPath, Value.asMap?, assertMap, Option.map_some',
    Option.some.injEq] at h
  have h2 := congrArg BeatsConfig.Container h
  simp only [hc, Value.map.injEq] at h2
  have h3 : findKey "shipper" r = none := by
    rw [← h2]
    exact findKey_remove_same _ _
  simp [index, h3] at hs

theorem candidate_congr (ext : Externals) (a b : BeatsConfig)
    (response : ResponseCollectorConfiguration)
    (h1 : b.Context = a.Context) (h2 : b.UserConfig = a.UserConfig) (h3 : b.Version = a.Version) :
    candidate ext b response = candidate ext a response := by
  have hn : NewCollectorConfig b = NewCollectorConfig a := by
    simp only [NewCollectorConfig, h1, h2, h3]
  unfold candidate
  rw [hn, h1, h3]

theorem leMap_findKey (m n : List (String × Value)) (h : Value.le.leMap m n = true) :
    ∀ k v, findKey k m = some v → ∃ w, findKey k n = some w ∧ Value.le v w = true := by
  induction m with
  | nil => intro k v hf; simp at hf
  | cons e rest ih =>
    intro k v hf
    obtain ⟨k2, v2⟩ := e
    simp only [Value.le.leMap, Bool.and_eq_true] at h
    by_cases hk : k2 = k
    · subst hk
      simp only [findKey_cons_same, Option.some.injEq] at hf
      subst hf
      cases hn : findKey k2 n with
      | none => simp [hn] at h
      | some w => exact ⟨w, rfl, by simpa [hn] using h.1⟩
    · rw [findKey_cons_ne hk] at hf
      exact ih h.2 k v hf

theorem le_map_left (m : List (String × Value)) (w : Value) (h : Value.le (Value.map m) w = true) :
    ∃ n, w = Value.map n ∧ Value.le.leMap m n = true := by
  cases w with
  | map n => exact ⟨n, rfl, by simpa [Value.le] using h⟩
  | _ => simp [Value.le] at h

/-- A configuration that still has its `shipper` mapping is not `Equals` to one whose
`shipper` mapping is gone. -/
theorem Equals_false_of_shipper (a b : BeatsConfig) (r mmap : Fields)
    (hb : b.Container = Value.map r) (hs : findKey "shipper" r = some (Value.map mmap))
    (ha : ShipperGone a.Container) : a.Equals b = false := by
  cases he : a.Equals b with
  | false => rfl
  | true =>
    simp only [BeatsConfig.Equals, Value.deepEq, Bool.and_eq_true] at he
    have hle := he.1.2
    rw [hb] at hle
    obtain ⟨n, hn, hmap⟩ := le_map_left r _ hle
    obtain ⟨w, hw, hlw⟩ := leMap_findKey r n hmap "shipper" _ hs
    obtain ⟨n2, hn2, _⟩ := le_map_left mmap w hlw
    exact absurd (by simp [index, hw, hn2]) (ha n n2 hn)

/-- The candidate always has the `shipper` mapping that line 81 writes. -/
theorem candidate_shipper (ext : Externals) (active : BeatsConfig)
    (response : ResponseCollectorConfiguration) (newConfig : BeatsConfig)
    (hc : candidate ext active response = Except.ok newConfig) :
    ∃ r, newConfig.Container = Value.map r ∧
      findKey "shipper" r = some (Value.map
        [("tags", Value.list (active.Context.UserConfig.Tags.map Value.str))]) := by
  have key : getPath ["shipper"] newConfig.Container = some (Value.map
      [("tags", Value.list (active.Context.UserConfig.Tags.map Value.str))]) := by
    obtain ⟨eventlogs, _, h⟩ := candidate_container ext active response newConfig hc
    have hloop : getPath ["shipper"]
        (outputsLoop ext response.Outputs (seedConfig active)).Container = some (Value.map
          [("tags", Value.list (active.Context.UserConfig.Tags.map Value.str))]) := by
      apply outputsLoop_induct (fun c => getPath ["shipper"] c = some (Value.map
          [("tags", Value.list (active.Context.UserConfig.Tags.map Value.str))]))
      · intro o _ _ e _ _ c hcv
        rw [getPath_setPath_root _ _ _ (by decide)]
        exact hcv
      · intro X _ v c hcv
        rw [getPath_setPath_root _ _ _ (by decide)]
        exact hcv
      · rfl
    rw [h]
    by_cases hv : active.Version.major ≥ 5
    · rw [if_pos hv, getPath_setPath_root _ _ _ (by decide),
        getPath_setPath_root _ _ _ (by decide)]
      exact hloop
    · rw [if_neg hv, getPath_setPath_root _ _ _ (by decide)]
      exact hloop
  obtain ⟨r, w, hr, hf, hw⟩ := getPath_cons_some key
  simp only [getPath, Option.some.injEq] at hw
  subst hw
  exact ⟨r, hr, hf⟩

theorem Render_of_map (ext : Externals) (wlbc : WinLogBeatConfig) (r : Fields)
    (bc1 : BeatsConfig) (hc : wlbc.Beats.Container = Value.map r)
    (hrun : runMigrations ext wlbc.Beats wlbc.Beats = some bc1) :
    Render ext wlbc =
      some (ext.serialize bc1 ++ snippetsToString ext bc1, { wlbc with Beats := bc1 }) := by
  unfold Render
  simp only [BeatsConfig.Data, hc, Value.isNull, hrun, Option.map_some']
  rfl

theorem RenderToFile_of_Render (ext : Externals) (disk : Disk) (sys : System) (text : String)
    (w : WinLogBeatConfig) (h : Render ext sys.wlbc = some (text, w)) :
    ∃ err sys1, RenderToFile ext disk sys = some (err, sys1) ∧ sys1.wlbc = w ∧
      (disk.createPathToFile w.Beats.UserConfig.ConfigurationPath = none →
        sys1.writes.length = sys.writes.length + 1) := by
  unfold RenderToFile
  simp only [h, Option.map_some']
  cases hd : disk.createPathToFile w.Beats.UserConfig.ConfigurationPath with
  | some e => exact ⟨_, _, rfl, rfl, fun h => by simp at h⟩
  | none => exact ⟨_, _, rfl, rfl, fun _ => by simp⟩

/-- C4 (repeated synchronization) at version 5.0.x: whenever a call of `RenderOnChange`
reported a change, the call that follows it with the same response and context reports a
change again, and writes the file again when its directory can be created. -/
theorem RenderOnChange_repeats_at_5_0 (ext : Externals) (disk : Disk)
    (response : ResponseCollectorConfiguration) (sys sys1 : System)
    (hv : sys.wlbc.Beats.Version.major = 5 ∧ sys.wlbc.Beats.Version.minor = 0)
    (h1 : RenderOnChange ext disk response sys = some (true, sys1)) :
    ∃ sys2, RenderOnChange ext disk response sys1 = some (true, sys2) ∧
      (disk.createPathToFile sys.wlbc.Beats.UserConfig.ConfigurationPath = none →
        sys2.writes.length = sys1.writes.length + 1) := by
  -- the first call
  unfold RenderOnChange at h1
  cases hc : candidate ext sys.wlbc.Beats response with
  | error msg => simp [hc] at h1
  | ok newConfig =>
    simp only [hc] at h1
    cases he : sys.wlbc.Beats.Equals newConfig with
    | true => simp [he] at h1
    | false =>
      simp only [he, Bool.not_false, if_true] at h1
      obtain ⟨r, hcont, hship⟩ := candidate_shipper ext _ response newConfig hc
      have hvu : (sys.wlbc.Beats.Update newConfig).Version.major = 5 ∧
          (sys.wlbc.Beats.Update newConfig).Version.minor = 0 := hv
      obtain ⟨bc1, hrun, _, hfix, _⟩ := runMigrations_settled ext
        (sys.wlbc.Beats.Update newConfig) (sys.wlbc.Beats.Update newConfig) hvu
      have hfields := runMigrations_fields ext _ _ _ hrun
      obtain ⟨err, s1, hrtf, hw1, _⟩ := RenderToFile_of_Render ext disk
        { sys with wlbc := { sys.wlbc with Beats := sys.wlbc.Beats.Update newConfig } } _ _
        (Render_of_map ext { sys.wlbc with Beats := sys.wlbc.Beats.Update newConfig } r bc1
          hcont hrun)
      rw [hrtf] at h1
      simp only [Option.map_some', Option.some.injEq, Prod.mk.injEq, true_and] at h1
      subst h1
      have hsys1 : s1.wlbc.Beats = bc1 := by rw [hw1]
      -- the second call
      have hc2 : candidate ext s1.wlbc.Beats response = Except.ok newConfig := by
        rw [hsys1, candidate_congr ext sys.wlbc.Beats bc1 response hfields.1 hfields.2.1
          hfields.2.2.1]
        exact hc
      have he2 : s1.wlbc.Beats.Equals newConfig = false := by
        apply Equals_false_of_shipper _ _ r _ hcont hship
        rw [hsys1]
        exact shipperGone_of_removeShipper_fixed bc1 hfix
      unfold RenderOnChange
      simp only [hc2, he2, Bool.not_false, if_true]
      obtain ⟨bc2, hrun2⟩ := runMigrations_total ext (s1.wlbc.Beats.Update newConfig)
        (s1.wlbc.Beats.Update newConfig)
      have hfields2 := runMigrations_fields ext _ _ _ hrun2
      have hpath : bc2.UserConfig.ConfigurationPath
          = sys.wlbc.Beats.UserConfig.ConfigurationPath := by
        rw [hfields2.2.1]
        show s1.wlbc.Beats.UserConfig.ConfigurationPath = _
        rw [hsys1, hfields.2.1]
        rfl
      obtain ⟨err2, s2, hrtf2, _, hlen⟩ := RenderToFile_of_Render ext disk
        { s1 with wlbc := { s1.wlbc with Beats := s1.wlbc.Beats.Update newConfig } } _ _
        (Render_of_map ext { s1.wlbc with Beats := s1.wlbc.Beats.Update newConfig } r bc2
          hcont hrun2)
      rw [hrtf2]
      refine ⟨s2, rfl, fun hd => ?_⟩
      exact hlen (by rw [hpath]; exact hd)

/-- Concrete instance: two calls with the example response on a
fresh system of version 5.0.0 both report a change and both write the file. -/
theorem RenderOnChange_repeats_at_5_0_witness :
    ∃ sys1, RenderOnChange exampleExternals goodDisk exampleResponse (freshSystem 5 0 0)
        = some (true, sys1) ∧
      ∃ sys2, RenderOnChange exampleExternals goodDisk exampleResponse sys1 = some (true, sys2) ∧
        (goodDisk.createPathToFile (freshSystem 5 0 0).wlbc.Beats.UserConfig.ConfigurationPath
            = none →
          sys2.writes.length = sys1.writes.length + 1) :=
  ⟨_, rfl, RenderOnChange_repeats_at_5_0 exampleExternals goodDisk exampleResponse
    (freshSystem 5 0 0) _ (by decide) rfl⟩

/-! ## Snippets -/

/-- C5 (snippet rendering) on two snippets whose templates compile: the piece of the
second snippet is the output of the first followed by its own, because the buffer that
receives each execution is never reset. -/
theorem snippetsToString_accumulates (ext : Externals) (bc : BeatsConfig)
    (s1 s2 : BeatSnippet) (hs : bc.Snippets = [s1, s2])
    (h1 : ext.templateParses s1.Value = true) (h2 : ext.templateParses s2.Value = true) :
    snippetsToString ext bc =
      ext.templateExecute s1.Value bc.Context.Inventory ++ "\n" ++
        (ext.templateExecute s1.Value bc.Context.Inventory ++
          ext.templateExecute s2.Value bc.Context.Inventory) ++ "\n" := by
  unfold snippetsToString
  simp only [hs, List.foldl_cons, List.foldl_nil, h1, h2, if_true, String.empty_append,
    String.append_assoc]

/-- Concrete instance: the plain-text snippets `a` and `b` render
as `a`, newline, `ab`, newline. -/
theorem snippetsToString_accumulates_witness :
    snippetsToString exampleExternals
        { exampleConfig 5 0 0 (Value.map []) with Snippets := twoSnippets }
      = "a" ++ "\n" ++ ("a" ++ "b") ++ "\n" :=
  snippetsToString_accumulates exampleExternals
    { exampleConfig 5 0 0 (Value.map []) with Snippets := twoSnippets }
    { Name := "s1", Value := "a" } { Name := "s2", Value := "b" } rfl rfl rfl


/-! ## The event logs of the inputs -/

theorem inputProperties_ok (ext : Externals) (props : List (String × Value))
    (h : ∀ e, e ∈ props → ∃ vt, ext.yamlUnmarshal (ext.PropertyString e.2 0) = some vt) :
    ∀ eventlogs, inputProperties ext props eventlogs
      = Except.ok (eventlogs ++ propertyEntries ext props) := by
  induction props with
  | nil => intro eventlogs; simp [inputProperties, propertyEntries]
  | cons e rest ih =>
    intro eventlogs
    obtain ⟨k, value⟩ := e
    obtain ⟨vt, hvt⟩ := h (k, value) (List.mem_cons_self _ _)
    simp only [inputProperties, hvt, propertyEntries, parsedList, Option.getD_some]
    rw [ih (fun e he => h e (List.mem_cons_of_mem _ he)), List.append_assoc]

theorem inputsLoop_ok (ext : Externals) (inputs : List ResponseCollectorEntry)
    (h : ∀ input, input ∈ inputs → input.Backend = "winlogbeat" → ∀ e, e ∈ input.Properties →
      ∃ vt, ext.yamlUnmarshal (ext.PropertyString e.2 0) = some vt) :
    ∀ eventlogs, inputsLoop ext inputs eventlogs
      = Except.ok (eventlogs ++ inputEntries ext inputs) := by
  induction inputs with
  | nil => intro eventlogs; simp [inputsLoop, inputEntries]
  | cons input rest ih =>
    intro eventlogs
    have ih2 := ih (fun i hi => h i (List.mem_cons_of_mem _ hi))
    by_cases hb : input.Backend = "winlogbeat"
    · simp only [inputsLoop, inputEntries, hb, if_true]
      rw [inputProperties_ok ext _ (h input (List.mem_cons_self _ _) hb)]
      simp only [ih2, List.append_assoc]
    · simp only [inputsLoop, inputEntries, hb, if_false, List.nil_append]
      exact ih2 _

/-- A response whose inputs give the event logs has a candidate. -/
theorem candidate_of_inputsLoop (ext : Externals) (active : BeatsConfig)
    (response : ResponseCollectorConfiguration) (eventlogs : List Value)
    (h : inputsLoop ext response.Inputs [] = Except.ok eventlogs) :
    ∃ newConfig, candidate ext active response = Except.ok newConfig := by
  unfold candidate
  simp only [h]
  exact ⟨_, rfl⟩

theorem outputsLoop_asMap (ext : Externals) (outputs : List ResponseCollectorEntry)
    (active : BeatsConfig) :
    (outputsLoop ext outputs (seedConfig active)).Container.asMap?.isSome = true := by
  apply outputsLoop_induct (fun c => c.asMap?.isSome = true)
  · intro o _ _ e _ _ c hc
    exact setPath_asMap_isSome _ _ _ (by simp) hc
  · intro X _ v c hc
    exact setPath_asMap_isSome _ _ _ (by simp) hc
  · rfl

theorem outputsLoop_root_frame (ext : Externals) (outputs : List ResponseCollectorEntry)
    (bc : BeatsConfig) (k : String) (q : List String) (hk : k ≠ "output") :
    getPath (k :: q) (outputsLoop ext outputs bc).Container = getPath (k :: q) bc.Container := by
  apply outputsLoop_induct (fun c => getPath (k :: q) c = getPath (k :: q) bc.Container)
  · intro o _ _ e _ _ c hc
    rw [getPath_setPath_root _ _ _ (Ne.symm hk)]
    exact hc
  · intro X _ v c hc
    rw [getPath_setPath_root _ _ _ (Ne.symm hk)]
    exact hc
  · rfl

theorem outputsLoop_settable_two (ext : Externals) (outputs : List ResponseCollectorEntry)
    (active : BeatsConfig) (z : String) :
    settable ["winlogbeat", z] (outputsLoop ext outputs (seedConfig active)).Container = true := by
  apply outputsLoop_induct (fun c => settable ["winlogbeat", z] c = true)
  · intro o _ _ e _ _ c hc
    exact settable_setPath _ _ _ _ (by simp) hc
  · intro X _ v c hc
    exact settable_setPath _ _ _ _ (by simp) hc
  · simp [seedConfig, BeatsConfig.Set, NewCollectorConfig, setPath, settable, Value.asMap?,
      assign, index, findKey]

/-- The candidate holds at `winlogbeat.event_logs` the list the loop over the inputs
accumulated. -/
theorem candidate_event_logs (ext : Externals) (active : BeatsConfig)
    (response : ResponseCollectorConfiguration) (newConfig : BeatsConfig)
    (hc : candidate ext active response = Except.ok newConfig) (eventlogs : List Value)
    (hi : inputsLoop ext response.Inputs [] = Except.ok eventlogs) :
    getPath ["winlogbeat", "event_logs"] newConfig.Container = some (Value.list eventlogs) := by
  obtain ⟨ev2, hi2, h⟩ := candidate_container ext active response newConfig hc
  rw [hi] at hi2
  cases hi2
  rw [h]
  have key : getPath ["winlogbeat", "event_logs"]
      (setPath (Value.list eventlogs) ["winlogbeat", "event_logs"]
        (outputsLoop ext response.Outputs (seedConfig active)).Container)
      = some (Value.list eventlogs) :=
    getPath_setPath_same _ _ _ (by simp) (outputsLoop_settable_two ext _ active _)
  by_cases hv : active.Version.major ≥ 5
  · rw [if_pos hv, getPath_setPath_root _ _ _ (by decide)]
    exact key
  · rw [if_neg hv]
    exact key

/-- C11 (input accumulation): when every property value of every input of backend
"winlogbeat" parses as a list, the call has a candidate and its `winlogbeat.event_logs` is
the single flattened list of all parsed elements, in the order of the inputs and, within
each parsed list, in element order (the properties of one input in the order in which
they are enumerated); no entry is dropped or duplicated. -/
theorem candidate_input_accumulation (ext : Externals) (active : BeatsConfig)
    (response : ResponseCollectorConfiguration)
    (h : ∀ input, input ∈ response.Inputs → input.Backend = "winlogbeat" →
      ∀ e, e ∈ input.Properties →
        ∃ vt, ext.yamlUnmarshal (ext.PropertyString e.2 0) = some vt) :
    ∃ newConfig, candidate ext active response = Except.ok newConfig ∧
      getPath ["winlogbeat", "event_logs"] newConfig.Container
        = some (Value.list (inputEntries ext response.Inputs)) := by
  have hi := inputsLoop_ok ext response.Inputs h []
  rw [List.nil_append] at hi
  obtain ⟨newConfig, hc⟩ := candidate_of_inputsLoop ext active response _ hi
  exact ⟨newConfig, hc, candidate_event_logs ext active response newConfig hc _ hi⟩

/-- Concrete instance: two inputs of this backend, one with `[Application]` and one with
`[Security, System]`, give the three channels in that order. -/
theorem candidate_input_accumulation_witness :
    ∃ newConfig,
      candidate exampleExternals (exampleConfig 5 0 0 (Value.map [])) mixedResponse
        = Except.ok newConfig ∧
      getPath ["winlogbeat", "event_logs"] newConfig.Container
        = some (Value.list
            [Value.str "Application", Value.str "Security", Value.str "System"]) :=
  candidate_input_accumulation exampleExternals (exampleConfig 5 0 0 (Value.map []))
    mixedResponse (by
      intro input hin hb e he
      simp only [mixedResponse, List.mem_cons, List.mem_singleton, List.not_mem_nil,
        or_false] at hin
      rcases hin with h | h | h
      · subst h
        simp only [List.mem_singleton] at he
        subst he
        exact ⟨_, rfl⟩
      · subst h
        exact absurd hb (by decide)
      · subst h
        simp only [List.mem_singleton] at he
        subst he
        exact ⟨_, rfl⟩)

/-! ## The name field -/

/-- C15 (name field): given a candidate, its top-level `name` is the collector identifier
of the context when the major version is at least 5, and it has no `name` key when the
major version is below 5. -/
theorem candidate_name (ext : Externals) (active : BeatsConfig)
    (response : ResponseCollectorConfiguration) (newConfig : BeatsConfig)
    (hc : candidate ext active response = Except.ok newConfig) :
    (active.Version.major ≥ 5 →
      getPath ["name"] newConfig.Container = some (Value.str active.Context.CollectorId)) ∧
    (active.Version.major < 5 → getPath ["name"] newConfig.Container = none) := by
  obtain ⟨eventlogs, _, h⟩ := candidate_container ext active response newConfig hc
  constructor
  · intro hv
    rw [h, if_pos hv]
    apply getPath_setPath_same _ _ _ (by simp)
    simp only [settable]
    exact setPath_asMap_isSome _ _ _ (by simp) (outputsLoop_asMap ext _ active)
  · intro hv
    rw [h, if_neg (by omega), getPath_setPath_root _ _ _ (by decide),
      outputsLoop_root_frame ext _ _ _ _ (by decide)]
    simp only [seedConfig, BeatsConfig.Set, NewCollectorConfig]
    rw [getPath_setPath_root _ _ _ (by decide)]
    rfl

/-- Concrete instance: the example response at version 4.2.0 has a candidate without
`name`. -/
theorem candidate_name_witness :
    ∃ newConfig,
      candidate exampleExternals (exampleConfig 4 2 0 (Value.map [])) exampleResponse
        = Except.ok newConfig ∧
      getPath ["name"] newConfig.Container = none :=
  ⟨_, rfl,
    (candidate_name exampleExternals (exampleConfig 4 2 0 (Value.map [])) exampleResponse _
      rfl).2 (by decide)⟩

/-! ## Entries of other backends -/

theorem inputsLoop_filter (ext : Externals) (inputs : List ResponseCollectorEntry) :
    ∀ eventlogs, inputsLoop ext (inputs.filter matchesBackend) eventlogs
      = inputsLoop ext inputs eventlogs := by
  induction inputs with
  | nil => intro eventlogs; rfl
  | cons input rest ih =>
    intro eventlogs
    by_cases hb : input.Backend = "winlogbeat"
    · have hm : matchesBackend input = true := by simp [matchesBackend, hb]
      rw [List.filter_cons_of_pos hm]
      simp only [inputsLoop, hb, if_true]
      cases inputProperties ext input.Properties eventlogs with
      | error msg => rfl
      | ok eventlogs2 => exact ih eventlogs2
    · have hm : ¬ matchesBackend input = true := by simp [matchesBackend, hb]
      rw [List.filter_cons_of_neg hm]
      simp only [inputsLoop, hb, if_false]
      exact ih eventlogs

theorem snippetsLoop_filter (snippets : List ResponseCollectorSnippet) :
    ∀ bc, snippetsLoop
        (snippets.filter (fun snippet => decide (snippet.Backend = "winlogbeat"))) bc
      = snippetsLoop snippets bc := by
  induction snippets with
  | nil => intro bc; rfl
  | cons s rest ih =>
    intro bc
    by_cases hb : s.Backend = "winlogbeat"
    · rw [List.filter_cons_of_pos (by simp [hb])]
      simp only [snippetsLoop, List.foldl_cons, hb, if_true] at ih ⊢
      exact ih _
    · rw [List.filter_cons_of_neg (by simp [hb])]
      simp only [snippetsLoop, List.foldl_cons, hb, if_false] at ih ⊢
      exact ih _

theorem candidate_filterResponse (ext : Externals) (active : BeatsConfig)
    (response : ResponseCollectorConfiguration) :
    candidate ext active (filterResponse response) = candidate ext active response := by
  unfold candidate
  simp only [filterResponse, inputsLoop_filter, snippetsLoop_filter]
  rw [← outputsLoop_filter]

/-- C12 (backend discriminator): removing from the response every output, input and
snippet whose backend is not "winlogbeat", inputs with unparsable values included,
changes neither the candidate nor whether the call ends with a parse error, nor the
result of `RenderOnChange` and the system it leaves. -/
theorem RenderOnChange_backend_discriminator (ext : Externals) (disk : Disk)
    (response : ResponseCollectorConfiguration) (sys : System) :
    candidate ext sys.wlbc.Beats (filterResponse response)
        = candidate ext sys.wlbc.Beats response ∧
      RenderOnChange ext disk (filterResponse response) sys
        = RenderOnChange ext disk response sys := by
  refine ⟨candidate_filterResponse ext _ response, ?_⟩
  unfold RenderOnChange
  rw [candidate_filterResponse]


/-! ## What the walks read and leave -/

theorem walk_one (act : Fields → Fields) (last : String) (t : Value) :
    walk act [last] t = actOn act t := by
  cases t <;> rfl

theorem walk_cons_map (act : Fields → Fields) (k x : String) (rest : List String)
    (m : Fields) :
    walk act (k :: x :: rest) (Value.map m) = Value.map (modify k (walk act (x :: rest)) m) :=
  rfl

theorem getPath_cons_not_map (k : String) (q : List String) (t : Value)
    (h : ∀ m, t ≠ Value.map m) : getPath (k :: q) t = none := by
  cases t with
  | map m => exact absurd rfl (h m)
  | _ => rfl

/-- The node at which a walk ends is mutated by the action of the walk. -/
theorem getPath_walk_at (act : Fields → Fields) (last : String) :
    ∀ (c : List String) (t : Value),
      getPath c (walk act (c ++ [last]) t) = (getPath c t).map (actOn act) := by
  intro c
  induction c with
  | nil => intro t; simp [getPath, walk_one]
  | cons k rest ih =>
    intro t
    obtain ⟨x, xs, hx⟩ : ∃ x xs, rest ++ [last] = x :: xs := by
      cases rest with
      | nil => exact ⟨last, [], rfl⟩
      | cons y ys => exact ⟨y, ys ++ [last], rfl⟩
    cases t with
    | map m =>
      rw [List.cons_append, hx, walk_cons_map, ← hx]
      simp only [getPath, findKey_modify_same]
      cases findKey k m with
      | none => rfl
      | some w => simp [ih]
    | _ =>
      rw [walk_of_asMap_none _ _ _ (by simp)]
      simp [getPath]

/-- A walk leaves what is read at a path that branches off it before its last segment. -/
theorem getPath_walk_branch (act : Fields → Fields) (a b x : String) (hab : a ≠ b)
    (rest q : List String) :
    ∀ (c : List String) (t : Value),
      getPath (c ++ b :: q) (walk act (c ++ a :: x :: rest) t) = getPath (c ++ b :: q) t := by
  intro c
  induction c with
  | nil =>
    intro t
    cases t with
    | map m =>
      simp only [List.nil_append, walk_cons_map, getPath, findKey_modify_ne (Ne.symm hab)]
    | _ => rw [walk_of_asMap_none _ _ _ (by simp)]
  | cons k c2 ih =>
    intro t
    obtain ⟨y, ys, hy⟩ : ∃ y ys, c2 ++ a :: x :: rest = y :: ys := by
      cases c2 with
      | nil => exact ⟨a, x :: rest, rfl⟩
      | cons z zs => exact ⟨z, zs ++ a :: x :: rest, rfl⟩
    cases t with
    | map m =>
      rw [List.cons_append, List.cons_append, hy, walk_cons_map, ← hy]
      simp only [getPath, findKey_modify_same]
      cases findKey k m with
      | none => rfl
      | some w => simp [ih]
    | _ => rw [walk_of_asMap_none _ _ _ (by simp)]

/-- Below the node at which a walk ends, what is read is read in the mutated node. -/
theorem getPath_walk_below (act : Fields → Fields) (last : String) (c q : List String)
    (t : Value) :
    getPath (c ++ q) (walk act (c ++ [last]) t)
      = (getPath c t).bind (fun w => getPath q (actOn act w)) := by
  rw [getPath_append, getPath_walk_at]
  cases getPath c t <;> rfl

/-- A walk changes nothing when the node at which it ends is not a mapping, which is the
case when any node before it is not a mapping. -/
theorem walk_of_not_map (act : Fields → Fields) (last : String) :
    ∀ (c : List String) (t : Value), (∀ m, getPath c t ≠ some (Value.map m)) →
      walk act (c ++ [last]) t = t := by
  intro c
  induction c with
  | nil =>
    intro t h
    cases t with
    | map m => exact absurd rfl (h m)
    | _ => rfl
  | cons k rest ih =>
    intro t h
    obtain ⟨x, xs, hx⟩ : ∃ x xs, rest ++ [last] = x :: xs := by
      cases rest with
      | nil => exact ⟨last, [], rfl⟩
      | cons y ys => exact ⟨y, ys ++ [last], rfl⟩
    cases t with
    | map m =>
      rw [List.cons_append, hx, walk_cons_map, ← hx, modify_of_fixed]
      intro w hw
      apply ih
      intro m2 hm2
      apply h m2
      simp [getPath, hw, hm2]
    | _ => exact walk_of_asMap_none _ _ _ (by simp)

/-- When a path leads to a mapping, every node on the way is a mapping. -/
theorem getPath_map_of_append (c rest : List String) (t : Value) (m : Fields)
    (h : getPath (c ++ rest) t = some (Value.map m)) : ∃ m2, getPath c t = some (Value.map m2) := by
  rw [getPath_append] at h
  cases hc : getPath c t with
  | none => simp [hc] at h
  | some w =>
    simp only [hc, Option.some_bind] at h
    cases rest with
    | nil =>
      simp only [getPath, Option.some.injEq] at h
      exact ⟨m, by rw [h]⟩
    | cons k ks =>
      cases w with
      | map m2 => exact ⟨m2, rfl⟩
      | _ => simp [getPath] at h

theorem isNull_eq_true_iff (v : Value) : v.isNull = true ↔ v = Value.null := by
  cases v <;> simp [Value.isNull]

theorem findKey_renameSslProperties_other (tm : Fields) (k : String)
    (h1 : k ≠ "certificate_key") (h2 : k ≠ "insecure") (h3 : k ≠ "key")
    (h4 : k ≠ "verification_mode") :
    findKey k (renameSslProperties tm) = findKey k tm := by
  unfold renameSslProperties
  simp only []
  split <;> split <;>
    simp only [findKey_remove_ne h1, findKey_remove_ne h2, findKey_assign_ne h3,
      findKey_assign_ne h4]

theorem findKey_insecure_step (m1 : Fields) (k : String) (h1 : k ≠ "insecure")
    (h2 : k ≠ "verification_mode") :
    findKey k
        (if (index m1 "insecure").isTrue = true then
          remove "insecure" (assign "verification_mode" (Value.str "none") m1)
        else m1) = findKey k m1 := by
  split
  · rw [findKey_remove_ne h1, findKey_assign_ne h2]
  · rfl

theorem findKey_renameSslProperties_key (tm : Fields) (v : Value)
    (h : findKey "certificate_key" tm = some v) (hv : v ≠ Value.null) :
    findKey "key" (renameSslProperties tm) = some v ∧
      findKey "certificate_key" (renameSslProperties tm) = none := by
  have hi : index tm "certificate_key" = v := by simp [index, h]
  have hn : v.isNull = false := by
    cases v with
    | null => exact absurd rfl hv
    | _ => rfl
  unfold renameSslProperties
  simp only [hi, hn, Bool.false_eq_true, if_false]
  rw [findKey_insecure_step _ _ (by decide) (by decide),
    findKey_insecure_step _ _ (by decide) (by decide)]
  exact ⟨by rw [findKey_remove_ne (by decide), findKey_assign_same], findKey_remove_same _ _⟩

theorem findKey_renameSslProperties_insecure (tm : Fields)
    (h : findKey "insecure" tm = some (Value.bool true)) :
    findKey "verification_mode" (renameSslProperties tm) = some (Value.str "none") ∧
      findKey "insecure" (renameSslProperties tm) = none := by
  unfold renameSslProperties
  simp only []
  have key : ∀ m1 : Fields, findKey "insecure" m1 = some (Value.bool true) →
      (findKey "verification_mode"
          (if (index m1 "insecure").isTrue = true then
            remove "insecure" (assign "verification_mode" (Value.str "none") m1)
          else m1) = some (Value.str "none") ∧
        findKey "insecure"
          (if (index m1 "insecure").isTrue = true then
            remove "insecure" (assign "verification_mode" (Value.str "none") m1)
          else m1) = none) := by
    intro m1 hm1
    have : (index m1 "insecure").isTrue = true := by simp [index, hm1, Value.isTrue]
    rw [if_pos this]
    exact ⟨by rw [findKey_remove_ne (by decide), findKey_assign_same], findKey_remove_same _ _⟩
  apply key
  split
  · exact h
  · rw [findKey_remove_ne (by decide), findKey_assign_ne (by decide)]
    exact h

theorem findKey_renameTls_other (lm : Fields) (k : String) (h1 : k ≠ "tls") (h2 : k ≠ "ssl") :
    findKey k (renameTls lm) = findKey k lm := by
  unfold renameTls
  split
  · rfl
  · rw [findKey_remove_ne h1, findKey_assign_ne h2]

theorem findKey_renameTls_map (lm tm : Fields) (h : findKey "tls" lm = some (Value.map tm)) :
    findKey "ssl" (renameTls lm) = some (Value.map tm) ∧ findKey "tls" (renameTls lm) = none := by
  have hi : index lm "tls" = Value.map tm := by simp [index, h]
  unfold renameTls
  simp only [hi, Value.isNull, Bool.false_eq_true, if_false]
  exact ⟨by rw [findKey_remove_ne (by decide), findKey_assign_same], findKey_remove_same _ _⟩

/-- The walks leave the subtree of every output type other than `logstash`. -/
theorem getPath_renameWalks_other_type (t : String) (ht : t ≠ "logstash") (q : List String)
    (c : Value) : getPath ("output" :: t :: q) (renameWalks c) = getPath ("output" :: t :: q) c := by
  unfold renameWalks
  have e1 := getPath_walk_branch renameTls "logstash" t "tls" (Ne.symm ht) [] q ["output"]
    (walk renameSslProperties ["output", "logstash", "tls", "certificate_key"] c)
  have e2 := getPath_walk_branch renameSslProperties "logstash" t "tls" (Ne.symm ht)
    ["certificate_key"] q ["output"] c
  simp only [List.cons_append, List.nil_append] at e1 e2
  rw [e1, e2]

/-- The walks leave every key of `output.logstash` other than `tls` and `ssl`. -/
theorem getPath_renameWalks_other_key (k : String) (h1 : k ≠ "tls") (h2 : k ≠ "ssl")
    (q : List String) (c : Value) :
    getPath ("output" :: "logstash" :: k :: q) (renameWalks c)
      = getPath ("output" :: "logstash" :: k :: q) c := by
  unfold renameWalks
  have e := getPath_walk_below renameTls "tls" ["output", "logstash"] (k :: q)
    (walk renameSslProperties ["output", "logstash", "tls", "certificate_key"] c)
  simp only [List.cons_append, List.nil_append] at e
  rw [e]
  have e2 : ∀ w, getPath (k :: q) (actOn renameTls w) = getPath (k :: q) w := by
    intro w
    cases w with
    | map lm => simp only [actOn, getPath, findKey_renameTls_other lm k h1 h2]
    | _ => rfl
  simp only [e2]
  have e3 := getPath_append ["output", "logstash"] (k :: q)
    (walk renameSslProperties ["output", "logstash", "tls", "certificate_key"] c)
  simp only [List.cons_append, List.nil_append] at e3
  rw [← e3]
  have e4 := getPath_walk_branch renameSslProperties "tls" k "certificate_key" (Ne.symm h1) [] q
    ["output", "logstash"] c
  simp only [List.cons_append, List.nil_append] at e4
  exact e4

/-- The walks move a mapping at `output.logstash.tls`, its properties renamed, to
`output.logstash.ssl`. -/
theorem getPath_renameWalks_tls (c : Value) (tm : Fields)
    (h : getPath ["output", "logstash", "tls"] c = some (Value.map tm)) (q : List String) :
    getPath ("output" :: "logstash" :: "ssl" :: q) (renameWalks c)
        = getPath q (Value.map (renameSslProperties tm)) ∧
      getPath ["output", "logstash", "tls"] (renameWalks c) = none := by
  have h1 : getPath ["output", "logstash", "tls"]
      (walk renameSslProperties ["output", "logstash", "tls", "certificate_key"] c)
      = some (Value.map (renameSslProperties tm)) := by
    have e := getPath_walk_at renameSslProperties "certificate_key" ["output", "logstash", "tls"] c
    simp only [List.cons_append, List.nil_append] at e
    rw [e, h]
    rfl
  have h2 := getPath_append ["output", "logstash"] ["tls"]
    (walk renameSslProperties ["output", "logstash", "tls", "certificate_key"] c)
  simp only [List.cons_append, List.nil_append] at h2
  rw [h1] at h2
  cases hl : getPath ["output", "logstash"]
      (walk renameSslProperties ["output", "logstash", "tls", "certificate_key"] c) with
  | none => simp [hl] at h2
  | some w =>
    simp only [hl, Option.some_bind] at h2
    obtain ⟨lm, w2, hw, hf, hw2⟩ := getPath_cons_some h2.symm
    simp only [getPath, Option.some.injEq] at hw2
    subst hw hw2
    obtain ⟨hssl, htls⟩ := findKey_renameTls_map lm _ hf
    unfold renameWalks
    constructor
    · have e := getPath_walk_below renameTls "tls" ["output", "logstash"] ("ssl" :: q)
        (walk renameSslProperties ["output", "logstash", "tls", "certificate_key"] c)
      simp only [List.cons_append, List.nil_append] at e
      rw [e, hl]
      simp [actOn, getPath, hssl]
    · have e := getPath_walk_below renameTls "tls" ["output", "logstash"] ["tls"]
        (walk renameSslProperties ["output", "logstash", "tls", "certificate_key"] c)
      simp only [List.cons_append, List.nil_append] at e
      rw [e, hl]
      simp [actOn, getPath, htls]

/-- At version 5.0 the migration of a root mapping does not panic, and below `output` the
result reads as the container after the two walks. -/
theorem runMigrations_output (ext : Externals) (wl bc : BeatsConfig) (r : Fields)
    (hv : wl.Version.major = 5 ∧ wl.Version.minor = 0) (h : bc.Container = Value.map r) :
    ∃ bc2, runMigrations ext wl bc = some bc2 ∧
      ∀ q, getPath ("output" :: q) bc2.Container
        = getPath ("output" :: q) (renameWalks bc.Container) := by
  obtain ⟨bc2, r2, hrun, hc, hframe⟩ := runMigrations_map ext wl bc r hv h
  refine ⟨bc2, hrun, fun q => ?_⟩
  rw [hc, h]
  simp only [renameWalks, walk, getPath]
  rw [hframe "output" (by decide) (by decide) (by decide)]

theorem getPath_snoc_some (c : List String) (k : String) (t v : Value)
    (h : getPath (c ++ [k]) t = some v) :
    ∃ m, getPath c t = some (Value.map m) ∧ findKey k m = some v := by
  rw [getPath_append] at h
  cases hc : getPath c t with
  | none => simp [hc] at h
  | some w =>
    simp only [hc, Option.some_bind] at h
    obtain ⟨m, w2, hw, hf, hw2⟩ := getPath_cons_some h
    simp only [getPath, Option.some.injEq] at hw2
    subst hw hw2
    exact ⟨m, rfl, hf⟩

/-! ## The tls migration -/

/-- C19, amended (sibling data of the tls subtree): at version 5.0.x, for a tree with a
mapping at `output.logstash.tls`, the migration does not panic and afterwards every key of
that mapping other than `certificate_key`, `insecure`, `key` and `verification_mode` is
under `output.logstash.ssl` with the same value, every key of `output.logstash` other than
`tls` and `ssl` reads as before (an `ssl` key already there is replaced by the migrated
mapping), and the subtree of every other output type reads as before. -/
theorem runMigrations_tls_siblings (ext : Externals) (wl bc : BeatsConfig)
    (hv : wl.Version.major = 5 ∧ wl.Version.minor = 0) (tm : Fields)
    (h : getPath ["output", "logstash", "tls"] bc.Container = some (Value.map tm)) :
    ∃ bc2, runMigrations ext wl bc = some bc2 ∧
      (∀ k v, findKey k tm = some v → k ≠ "certificate_key" → k ≠ "insecure" → k ≠ "key" →
        k ≠ "verification_mode" →
        getPath ["output", "logstash", "ssl", k] bc2.Container = some v) ∧
      (∀ k q, k ≠ "tls" → k ≠ "ssl" →
        getPath ("output" :: "logstash" :: k :: q) bc2.Container
          = getPath ("output" :: "logstash" :: k :: q) bc.Container) ∧
      (∀ t q, t ≠ "logstash" →
        getPath ("output" :: t :: q) bc2.Container = getPath ("output" :: t :: q) bc.Container) := by
  obtain ⟨r, _, hr, _, _⟩ := getPath_cons_some h
  obtain ⟨bc2, hrun, hout⟩ := runMigrations_output ext wl bc r hv hr
  refine ⟨bc2, hrun, ?_, ?_, ?_⟩
  · intro k v hf h1 h2 h3 h4
    rw [hout, (getPath_renameWalks_tls bc.Container tm h [k]).1]
    simp only [getPath, findKey_renameSslProperties_other tm k h1 h2 h3 h4, hf, Option.some_bind]
  · intro k q h1 h2
    rw [hout, getPath_renameWalks_other_key k h1 h2]
  · intro t q ht
    rw [hout, getPath_renameWalks_other_type t ht]

/-- The tree with tls settings under an `elasticsearch` output: at version 5.0.0 the
migration leaves `output.elasticsearch.tls.certificate_key` where it is and writes no
`output.elasticsearch.ssl.key`. -/
theorem runMigrations_other_type_untouched :
    getPath ["output", "elasticsearch", "tls", "certificate_key"] elasticsearchTree
        = some (Value.str "k1") ∧
      ∃ bc2, runMigrations exampleExternals (exampleConfig 5 0 0 elasticsearchTree)
          (exampleConfig 5 0 0 elasticsearchTree) = some bc2 ∧
        getPath ["output", "elasticsearch", "ssl", "key"] bc2.Container = none ∧
        getPath ["output", "elasticsearch", "tls", "certificate_key"] bc2.Container
          = some (Value.str "k1") :=
  ⟨rfl, _, rfl, rfl, rfl⟩

/-- C18, amended (the tls migration applies to the `logstash` output only): at version
5.0.x, for every tree with `output.logstash.tls.certificate_key = k`, `k` not nil, the
migration does not panic and afterwards `output.logstash.ssl.key = k`, there is no `tls`
key under `output.logstash`, `output.logstash.tls.insecure = true` has become
`output.logstash.ssl.verification_mode = "none"`, and the subtree of every other output
type reads as before. -/
theorem runMigrations_tls_logstash_only (ext : Externals) (wl bc : BeatsConfig)
    (hv : wl.Version.major = 5 ∧ wl.Version.minor = 0) (k : Value) (hk : k ≠ Value.null)
    (h : getPath ["output", "logstash", "tls", "certificate_key"] bc.Container = some k) :
    ∃ bc2, runMigrations ext wl bc = some bc2 ∧
      getPath ["output", "logstash", "ssl", "key"] bc2.Container = some k ∧
      getPath ["output", "logstash", "tls"] bc2.Container = none ∧
      (getPath ["output", "logstash", "tls", "insecure"] bc.Container = some (Value.bool true) →
        getPath ["output", "logstash", "ssl", "verification_mode"] bc2.Container
          = some (Value.str "none")) ∧
      (∀ t q, t ≠ "logstash" →
        getPath ("output" :: t :: q) bc2.Container = getPath ("output" :: t :: q) bc.Container) := by
  obtain ⟨r, _, hr, _, _⟩ := getPath_cons_some h
  obtain ⟨tm, htm, hfk⟩ := getPath_snoc_some ["output", "logstash", "tls"] "certificate_key"
    bc.Container k h
  obtain ⟨bc2, hrun, hout⟩ := runMigrations_output ext wl bc r hv hr
  obtain ⟨hkey, _⟩ := findKey_renameSslProperties_key tm k hfk hk
  refine ⟨bc2, hrun, ?_, ?_, ?_, ?_⟩
  · rw [hout, (getPath_renameWalks_tls bc.Container tm htm ["key"]).1]
    simp only [getPath, hkey, Option.some_bind]
  · rw [hout, (getPath_renameWalks_tls bc.Container tm htm []).2]
  · intro hins
    obtain ⟨tm2, htm2, hfi⟩ := getPath_snoc_some ["output", "logstash", "tls"] "insecure"
      bc.Container _ hins
    have : tm2 = tm := by
      rw [htm] at htm2
      simpa using htm2.symm
    subst this
    rw [hout, (getPath_renameWalks_tls bc.Container tm2 htm ["verification_mode"]).1]
    simp only [getPath, (findKey_renameSslProperties_insecure tm2 hfi).1, Option.some_bind]
  · intro t q ht
    rw [hout, getPath_renameWalks_other_type t ht]

/-- Concrete instance: the tls tree at version 5.0.1. -/
theorem runMigrations_tls_logstash_only_witness :
    ∃ bc2, runMigrations exampleExternals (exampleConfig 5 0 1 tlsTree)
        (exampleConfig 5 0 1 tlsTree) = some bc2 ∧
      getPath ["output", "logstash", "ssl", "key"] bc2.Container = some (Value.str "k1") ∧
      getPath ["output", "logstash", "tls"] bc2.Container = none ∧
      (getPath ["output", "logstash", "tls", "insecure"] (exampleConfig 5 0 1 tlsTree).Container
          = some (Value.bool true) →
        getPath ["output", "logstash", "ssl", "verification_mode"] bc2.Container
          = some (Value.str "none")) ∧
      (∀ t q, t ≠ "logstash" →
        getPath ("output" :: t :: q) bc2.Container
          = getPath ("output" :: t :: q) (exampleConfig 5 0 1 tlsTree).Container) :=
  runMigrations_tls_logstash_only exampleExternals _ _ (by decide) (Value.str "k1")
    (fun h => Value.noConfusion h) rfl

/-- Concrete instance: the tls tree extended with a certificate, a host list and a second
output, at version 5.0.0. -/
theorem runMigrations_tls_siblings_witness :
    ∃ bc2, runMigrations exampleExternals (exampleConfig 5 0 0 siblingsTree)
        (exampleConfig 5 0 0 siblingsTree) = some bc2 ∧
      getPath ["output", "logstash", "ssl", "certificate"] bc2.Container
        = some (Value.str "/etc/cert.pem") ∧
      getPath ["output", "logstash", "hosts"] bc2.Container
        = some (Value.list [Value.str "graylog:5044"]) ∧
      getPath ["output", "file", "path"] bc2.Container = some (Value.str "/tmp/out") :=
  match runMigrations_tls_siblings exampleExternals (exampleConfig 5 0 0 siblingsTree)
      (exampleConfig 5 0 0 siblingsTree) (by decide)
      [("certificate_key", Value.str "k1"), ("certificate", Value.str "/etc/cert.pem")] rfl with
  | ⟨bc2, hrun, h1, h2, h3⟩ =>
    ⟨bc2, hrun,
      h1 "certificate" (Value.str "/etc/cert.pem") rfl (by decide) (by decide) (by decide)
        (by decide),
      (h2 "hosts" [] (by decide) (by decide)).trans rfl,
      (h3 "file" ["path"] (by decide)).trans rfl⟩

/-! ## The shipper rule and the path settings -/

theorem renameWalks_map (r : Fields) :
    ∃ r1, renameWalks (Value.map r) = Value.map r1 ∧
      ∀ k, k ≠ "output" → findKey k r1 = findKey k r := by
  refine ⟨_, rfl, ?_⟩
  intro k hk
  rw [findKey_modify_ne hk, findKey_modify_ne hk]

/-- The shipper rule on a root mapping whose `shipper` is a mapping: `tags` receives
`mmap["tags"]` and `shipper` is deleted, without a panic. -/
theorem removeShipper_of_map (bc : BeatsConfig) (r mmap : Fields)
    (h : bc.Container = Value.map r) (hs : findKey "shipper" r = some (Value.map mmap)) :
    removeShipper bc =
      some { bc with
        Container := Value.map (remove "shipper" (assign "tags" (index mmap "tags") r)) } := by
  unfold removeShipper
  simp [h, index, hs, BeatsConfig.Set, setPath, Value.asMap?, assertMap]

theorem getPath_pathSettings_root (ext : Externals) (wl : BeatsConfig) (k : String)
    (q : List String) (hk : k ≠ "path") (c : Value) :
    getPath (k :: q) (pathSettings ext wl c) = getPath (k :: q) c := by
  unfold pathSettings
  rw [getPath_setPath_root _ _ _ (Ne.symm hk), getPath_setPath_root _ _ _ (Ne.symm hk)]

/-- At version 5.0, on a root mapping whose `shipper` is a mapping, the migration does not
panic and leaves `mmap["tags"]` at the top-level `tags` and no `shipper` key. -/
theorem runMigrations_shipper (ext : Externals) (wl bc : BeatsConfig)
    (hv : wl.Version.major = 5 ∧ wl.Version.minor = 0) (mmap : Fields)
    (h : getPath ["shipper"] bc.Container = some (Value.map mmap)) :
    ∃ bc2, runMigrations ext wl bc = some bc2 ∧
      getPath ["tags"] bc2.Container = some (index mmap "tags") ∧
      getPath ["shipper"] bc2.Container = none := by
  obtain ⟨r, w, hr, hf, hw⟩ := getPath_cons_some h
  simp only [getPath, Option.some.injEq] at hw
  subst hw
  obtain ⟨r1, hr1, hframe⟩ := renameWalks_map r
  rw [runMigrations_eq ext wl bc hv]
  have hs : removeShipper { bc with Container := renameWalks bc.Container } = _ :=
    removeShipper_of_map _ r1 mmap (by rw [hr, hr1])
      (by rw [hframe _ (by decide)]; exact hf)
  rw [hs]
  refine ⟨_, rfl, ?_, ?_⟩
  · simp only [getPath_pathSettings_root ext wl "tags" [] (by decide)]
    simp [getPath, findKey_remove_ne]
  · simp only [getPath_pathSettings_root ext wl "shipper" [] (by decide)]
    simp [getPath]

/-- C13 (shipper relocation): at version 5.0.x, for a tree whose root is a mapping with
`shipper.tags = v`, the migration does not panic and afterwards the top-level key `tags`
holds `v` and the root has no `shipper` key. -/
theorem runMigrations_shipper_relocation (ext : Externals) (wl bc : BeatsConfig)
    (hv : wl.Version.major = 5 ∧ wl.Version.minor = 0) (v : Value)
    (h : getPath ["shipper", "tags"] bc.Container = some v) :
    ∃ bc2, runMigrations ext wl bc = some bc2 ∧
      getPath ["tags"] bc2.Container = some v ∧
      getPath ["shipper"] bc2.Container = none := by
  obtain ⟨mmap, hm, hf⟩ := getPath_snoc_some ["shipper"] "tags" bc.Container v h
  obtain ⟨bc2, hrun, ht, hs⟩ := runMigrations_shipper ext wl bc hv mmap hm
  refine ⟨bc2, hrun, ?_, hs⟩
  rw [ht]
  simp [index, hf]

/-- The shipper rule on a `shipper` mapping without a `tags` key, at version 5.0.x: the
migration deletes `shipper` and writes nil to the top-level `tags`, whatever it held. -/
theorem runMigrations_shipper_without_tags (ext : Externals) (wl bc : BeatsConfig)
    (hv : wl.Version.major = 5 ∧ wl.Version.minor = 0) (mmap : Fields)
    (h : getPath ["shipper"] bc.Container = some (Value.map mmap))
    (ht : getPath ["shipper", "tags"] bc.Container = none) :
    ∃ bc2, runMigrations ext wl bc = some bc2 ∧
      getPath ["tags"] bc2.Container = some Value.null ∧
      getPath ["shipper"] bc2.Container = none := by
  obtain ⟨bc2, hrun, htags, hs⟩ := runMigrations_shipper ext wl bc hv mmap h
  refine ⟨bc2, hrun, ?_, hs⟩
  have e := getPath_append ["shipper"] ["tags"] bc.Container
  simp only [List.cons_append, List.nil_append] at e
  rw [e, h] at ht
  have hf : findKey "tags" mmap = none := by
    cases hfk : findKey "tags" mmap with
    | none => rfl
    | some w => simp [getPath, hfk] at ht
  rw [htags]
  simp [index, hf]

/-- C14 (path settings): at version 5.0.x, for a tree whose root is a mapping in which
`path` is absent or a mapping, the migration does not panic and afterwards `path.data` is
the run path when it is not empty and otherwise the join of the directory of the binary
path with `data`, and `path.logs` is the log path. -/
theorem runMigrations_path_settings (ext : Externals) (wl bc : BeatsConfig)
    (hv : wl.Version.major = 5 ∧ wl.Version.minor = 0) (r : Fields)
    (hr : bc.Container = Value.map r)
    (hp : getPath ["path"] bc.Container = none ∨
      ∃ pm, getPath ["path"] bc.Container = some (Value.map pm)) :
    ∃ bc2, runMigrations ext wl bc = some bc2 ∧
      getPath ["path", "data"] bc2.Container
        = some (Value.str
            (if wl.UserConfig.RunPath = "" then
              ext.filepathJoin (ext.filepathDir wl.UserConfig.BinaryPath) "data"
            else wl.UserConfig.RunPath)) ∧
      getPath ["path", "logs"] bc2.Container = some (Value.str wl.Context.UserConfig.LogPath) := by
  obtain ⟨r1, hr1, hframe⟩ := renameWalks_map r
  rw [runMigrations_eq ext wl bc hv]
  obtain ⟨c2, m2, hrs, hc2, hframe2, _⟩ := removeShipper_asMap
    { bc with Container := renameWalks bc.Container } r1 (by simp [hr, hr1, Value.asMap?])
  rw [hrs]
  have hpath : findKey "path" m2 = findKey "path" r := by
    rw [hframe2 _ (by decide) (by decide), hframe _ (by decide)]
  have hsome : (index m2 "path").asMap?.isSome = true := by
    rw [hr] at hp
    simp only [getPath] at hp
    rcases hp with hp | ⟨pm, hp⟩
    · cases hfp : findKey "path" r with
      | none => simp [index, hpath, hfp, Value.asMap?]
      | some w => simp [hfp] at hp
    · cases hfp : findKey "path" r with
      | none => simp [hfp] at hp
      | some w =>
        simp only [hfp, Option.some_bind, Option.some.injEq] at hp
        subst hp
        simp [index, hpath, hfp, Value.asMap?]
  have hset : ∀ z, settable ["path", z] c2 = true := by
    intro z
    simp only [settable, hc2]
    exact hsome
  refine ⟨_, rfl, ?_, ?_⟩
  · show getPath ["path", "data"] (pathSettings ext wl c2) = _
    unfold pathSettings
    have e := getPath_setPath_branch (Value.str wl.Context.UserConfig.LogPath) "logs" "data"
      (by decide) [] [] ["path"] (setPath (Value.str (dataPath ext wl)) ["path", "data"] c2)
    simp only [List.cons_append, List.nil_append] at e
    rw [e]
    exact getPath_setPath_same _ _ _ (by simp) (hset _)
  · show getPath ["path", "logs"] (pathSettings ext wl c2) = _
    unfold pathSettings
    exact getPath_setPath_same _ _ _ (by simp) (settable_setPath _ _ _ _ (by simp) (hset _))

/-- Concrete instance: the seeded tree at version 5.0.0. -/
theorem runMigrations_shipper_relocation_witness :
    ∃ bc2, runMigrations exampleExternals (exampleConfig 5 0 0 shipperTree)
        (exampleConfig 5 0 0 shipperTree) = some bc2 ∧
      getPath ["tags"] bc2.Container = some (Value.list [Value.str "windows"]) ∧
      getPath ["shipper"] bc2.Container = none :=
  runMigrations_shipper_relocation exampleExternals _ _ (by decide) _ rfl

/-- The tree with top-level tags `[windows]` and an empty `shipper` mapping, at version
5.0.0: `shipper.tags` is absent, and yet the migration does not leave `tags` and `shipper`
as they were: `tags` holds nil afterwards and `shipper` is gone. -/
theorem runMigrations_stale_shipper_changed :
    getPath ["shipper", "tags"] (exampleConfig 5 0 0 staleShipperTree).Container = none ∧
      getPath ["shipper"] (exampleConfig 5 0 0 staleShipperTree).Container
        = some (Value.map []) ∧
      getPath ["tags"] (exampleConfig 5 0 0 staleShipperTree).Container
        = some (Value.list [Value.str "windows"]) ∧
      ∃ bc2, runMigrations exampleExternals (exampleConfig 5 0 0 staleShipperTree)
          (exampleConfig 5 0 0 staleShipperTree) = some bc2 ∧
        getPath ["tags"] bc2.Container = some Value.null ∧
        getPath ["shipper"] bc2.Container = none :=
  ⟨rfl, rfl, rfl,
    runMigrations_shipper_without_tags exampleExternals _ _ (by decide) [] rfl rfl⟩

/-- Concrete instance: no run path and the binary at `/usr/bin/winlogbeat`, on the tls
tree. -/
theorem runMigrations_path_settings_witness :
    ∃ bc2, runMigrations exampleExternals (noRunPathConfig tlsTree) (noRunPathConfig tlsTree)
        = some bc2 ∧
      getPath ["path", "data"] bc2.Container = some (Value.str "/usr/bin/data") ∧
      getPath ["path", "logs"] bc2.Container = some (Value.str "/var/log/sidecar") :=
  runMigrations_path_settings exampleExternals (noRunPathConfig tlsTree)
    (noRunPathConfig tlsTree) (by decide) _ rfl (Or.inl rfl)

/-! ## Panic freedom -/

theorem removeShipper_total (bc : BeatsConfig) : ∃ bc3, removeShipper bc = some bc3 := by
  cases hm : bc.Container.asMap? with
  | none => exact ⟨bc, removeShipper_of_asMap_none bc hm⟩
  | some m =>
    obtain ⟨c2, _, h, _⟩ := removeShipper_asMap bc m hm
    exact ⟨_, h⟩

/-- C20 (totality and panic freedom at version 5.0.x): for every root the migration returns
without a panic; the body of the shipper rule, with its type assertion of the root, is
entered exactly when its cursor is a mapping, which happens only for a root mapping, and
the assertion then succeeds; and a rule changes nothing when a node before the last segment
of its path (root, `output`, `output.logstash`, `output.logstash.tls`, or root and
`shipper`) is not a mapping. -/
theorem runMigrations_panic_free (ext : Externals) (wl bc : BeatsConfig)
    (hv : wl.Version.major = 5 ∧ wl.Version.minor = 0) :
    (∃ bc3, removeShipper { bc with Container := renameWalks bc.Container } = some bc3 ∧
      runMigrations ext wl bc
        = some { bc3 with Container := pathSettings ext wl bc3.Container }) ∧
    (∀ (b : BeatsConfig) (mmap : Fields), shipperCursor b.Container = Value.map mmap →
      ∃ root, b.Container = Value.map root ∧
        assertMap (b.Set (index mmap "tags") ["tags"]).Container
          = some (assign "tags" (index mmap "tags") root) ∧
        removeShipper b = some { b with
          Container := Value.map (remove "shipper" (assign "tags" (index mmap "tags") root)) }) ∧
    (∀ b : BeatsConfig, (∀ mmap, shipperCursor b.Container ≠ Value.map mmap) →
      removeShipper b = some b) ∧
    (∀ (c : Value) (q rest : List String), q ++ rest = ["output", "logstash", "tls"] →
      (∀ m, getPath q c ≠ some (Value.map m)) →
      walk renameSslProperties ["output", "logstash", "tls", "certificate_key"] c = c) ∧
    (∀ (c : Value) (q rest : List String), q ++ rest = ["output", "logstash"] →
      (∀ m, getPath q c ≠ some (Value.map m)) →
      walk renameTls ["output", "logstash", "tls"] c = c) ∧
    (∀ (b : BeatsConfig) (q rest : List String), q ++ rest = ["shipper"] →
      (∀ m, getPath q b.Container ≠ some (Value.map m)) →
      removeShipper b = some b) := by
  have hbefore : ∀ (c : Value) (q rest full : List String), q ++ rest = full →
      (∀ m, getPath q c ≠ some (Value.map m)) → ∀ m, getPath full c ≠ some (Value.map m) := by
    intro c q rest full hq hn m hm
    rw [← hq] at hm
    obtain ⟨m2, hm2⟩ := getPath_map_of_append q rest c m hm
    exact hn m2 hm2
  have hcursor : ∀ (b : BeatsConfig) (mmap : Fields),
      shipperCursor b.Container = Value.map mmap →
      ∃ root, b.Container = Value.map root ∧ index root "shipper" = Value.map mmap := by
    intro b mmap hc
    cases hb : b.Container with
    | map root =>
      rw [hb] at hc
      exact ⟨root, rfl, hc⟩
    | _ =>
      rw [hb] at hc
      simp only [shipperCursor] at hc
      cases hc
  refine ⟨?_, ?_, ?_, ?_, ?_, ?_⟩
  · obtain ⟨bc3, h3⟩ := removeShipper_total { bc with Container := renameWalks bc.Container }
    refine ⟨bc3, h3, ?_⟩
    rw [runMigrations_eq ext wl bc hv, h3]
    rfl
  · intro b mmap hc
    obtain ⟨root, hb, hs⟩ := hcursor b mmap hc
    have hf : findKey "shipper" root = some (Value.map mmap) := by
      cases hfk : findKey "shipper" root with
      | none => simp [index, hfk] at hs
      | some w =>
        simp only [index, hfk, Option.getD_some] at hs
        rw [hs]
    refine ⟨root, hb, ?_, removeShipper_of_map b root mmap hb hf⟩
    simp [BeatsConfig.Set, hb, setPath, Value.asMap?, assertMap]
  · intro b hn
    apply removeShipper_of_gone
    intro r mmap hc hs
    exact hn mmap (by rw [hc]; exact hs)
  · intro c q rest hq hn
    exact walk_of_not_map renameSslProperties "certificate_key" ["output", "logstash", "tls"] c
      (hbefore c q rest _ hq hn)
  · intro c q rest hq hn
    exact walk_of_not_map renameTls "tls" ["output", "logstash"] c (hbefore c q rest _ hq hn)
  · intro b q rest hq hn
    apply removeShipper_of_gone
    intro r mmap hc hs
    apply hbefore b.Container q rest _ hq hn mmap
    rw [hc]
    cases hfk : findKey "shipper" r with
    | none => simp [index, hfk] at hs
    | some w =>
      simp only [index, hfk, Option.getD_some] at hs
      simp [getPath, hfk, hs]

/-- Concrete instance: a scalar root at version 5.0.0 is returned as it is. -/
theorem runMigrations_panic_free_witness :
    (∃ bc3, removeShipper
          { exampleConfig 5 0 0 (Value.str "x") with
            Container := renameWalks (exampleConfig 5 0 0 (Value.str "x")).Container }
          = some bc3 ∧
        runMigrations exampleExternals (exampleConfig 5 0 0 (Value.str "x"))
            (exampleConfig 5 0 0 (Value.str "x"))
          = some { bc3 with
              Container := pathSettings exampleExternals (exampleConfig 5 0 0 (Value.str "x"))
                bc3.Container }) ∧
      walk renameSslProperties ["output", "logstash", "tls", "certificate_key"] (Value.str "x")
        = Value.str "x" ∧
      removeShipper (exampleConfig 5 0 0 (Value.str "x"))
        = some (exampleConfig 5 0 0 (Value.str "x")) :=
  ⟨(runMigrations_panic_free exampleExternals (exampleConfig 5 0 0 (Value.str "x"))
      (exampleConfig 5 0 0 (Value.str "x")) (by decide)).1,
    (runMigrations_panic_free exampleExternals (exampleConfig 5 0 0 (Value.str "x"))
      (exampleConfig 5 0 0 (Value.str "x")) (by decide)).2.2.2.1 (Value.str "x") []
      ["output", "logstash", "tls"] rfl (fun m h => by simp [getPath] at h),
    (runMigrations_panic_free exampleExternals (exampleConfig 5 0 0 (Value.str "x"))
      (exampleConfig 5 0 0 (Value.str "x")) (by decide)).2.2.2.2.2
      (exampleConfig 5 0 0 (Value.str "x")) [] ["shipper"] rfl
      (fun m h => by simp [getPath, exampleConfig] at h)⟩

/-! ## Enumeration order of the properties -/

/-- C16 (deterministic merge), for an input with two list-valued properties: enumerated
in one order the candidate has the elements of the first list before those of the second
at `winlogbeat.event_logs`, enumerated in the other order it has them after; the list
follows the enumeration order of the properties. -/
theorem candidate_event_logs_order (ext : Externals) (active : BeatsConfig)
    (outputs : List ResponseCollectorEntry) (snippets : List ResponseCollectorSnippet)
    (ty k1 k2 : String) (v1 v2 : Value) (l1 l2 : List Value)
    (h1 : ext.yamlUnmarshal (ext.PropertyString v1 0) = some l1)
    (h2 : ext.yamlUnmarshal (ext.PropertyString v2 0) = some l2) :
    (∃ c1, candidate ext active
          { Outputs := outputs
            Inputs := [{ Backend := "winlogbeat", Type_ := ty,
                         Properties := [(k1, v1), (k2, v2)] }]
            Snippets := snippets } = Except.ok c1 ∧
        getPath ["winlogbeat", "event_logs"] c1.Container = some (Value.list (l1 ++ l2))) ∧
      (∃ c2, candidate ext active
          { Outputs := outputs
            Inputs := [{ Backend := "winlogbeat", Type_ := ty,
                         Properties := [(k2, v2), (k1, v1)] }]
            Snippets := snippets } = Except.ok c2 ∧
        getPath ["winlogbeat", "event_logs"] c2.Container = some (Value.list (l2 ++ l1))) := by
  have key : ∀ (ka kb : String) (va vb : Value) (la lb : List Value),
      ext.yamlUnmarshal (ext.PropertyString va 0) = some la →
      ext.yamlUnmarshal (ext.PropertyString vb 0) = some lb →
      ∃ c, candidate ext active
          { Outputs := outputs
            Inputs := [{ Backend := "winlogbeat", Type_ := ty,
                         Properties := [(ka, va), (kb, vb)] }]
            Snippets := snippets } = Except.ok c ∧
        getPath ["winlogbeat", "event_logs"] c.Container = some (Value.list (la ++ lb)) := by
    intro ka kb va vb la lb ha hb
    have hi : inputsLoop ext
        [{ Backend := "winlogbeat", Type_ := ty, Properties := [(ka, va), (kb, vb)] }] []
        = Except.ok (la ++ lb) := by
      simp [inputsLoop, inputProperties, ha, hb]
    obtain ⟨c, hc⟩ := candidate_of_inputsLoop ext active
      { Outputs := outputs
        Inputs := [{ Backend := "winlogbeat", Type_ := ty,
                     Properties := [(ka, va), (kb, vb)] }]
        Snippets := snippets } _ hi
    exact ⟨c, hc, candidate_event_logs ext active _ c hc _ hi⟩
  exact ⟨key k1 k2 v1 v2 l1 l2 h1 h2, key k2 k1 v2 v1 l2 l1 h2 h1⟩

/-- Concrete instance: properties `a` with `[Application]` and `b` with
`[Security, System]` at version 4.2.0; the two enumeration orders give two different
lists and the two candidates are not `Equals`, so a call that follows a call with the same
properties enumerated the same way reports no change, and enumerated the other way reports
a change. -/
theorem candidate_event_logs_order_witness :
    ((∃ c1, candidate exampleExternals (exampleConfig 4 2 0 (Value.map []))
            twoPropertiesResponse = Except.ok c1 ∧
          getPath ["winlogbeat", "event_logs"] c1.Container
            = some (Value.list
                ([Value.str "Application"] ++ [Value.str "Security", Value.str "System"]))) ∧
        (∃ c2, candidate exampleExternals (exampleConfig 4 2 0 (Value.map []))
            twoPropertiesSwapped = Except.ok c2 ∧
          getPath ["winlogbeat", "event_logs"] c2.Container
            = some (Value.list
                ([Value.str "Security", Value.str "System"] ++ [Value.str "Application"])))) ∧
      (match candidate exampleExternals (exampleConfig 4 2 0 (Value.map []))
          twoPropertiesResponse,
        candidate exampleExternals (exampleConfig 4 2 0 (Value.map []))
          twoPropertiesSwapped with
      | Except.ok c1, Except.ok c2 => c1.Equals c2
      | _, _ => true) = false ∧
      ((RenderOnChange exampleExternals goodDisk twoPropertiesResponse (freshSystem 4 2 0)).bind
          (fun first =>
            (RenderOnChange exampleExternals goodDisk twoPropertiesResponse first.2).map
              (fun second => (first.1, second.1)))) = some (true, false) ∧
      ((RenderOnChange exampleExternals goodDisk twoPropertiesResponse (freshSystem 4 2 0)).bind
          (fun first =>
            (RenderOnChange exampleExternals goodDisk twoPropertiesSwapped first.2).map
              (fun second => (first.1, second.1)))) = some (true, true) :=
  ⟨candidate_event_logs_order exampleExternals (exampleConfig 4 2 0 (Value.map [])) [] []
      "windows-event-log" "a" "b" (Value.str "[Application]") (Value.str "[Security, System]")
      [Value.str "Application"] [Value.str "Security", Value.str "System"] rfl rfl,
    rfl, rfl, rfl⟩


/-! ## Keys the migration replaces or keeps -/

/-- The candidate of a response whose logstash output has a property `ssl` next to its tls
settings, at version 5.0.0: it has a mapping at `output.logstash.tls` and the key `ssl` of
`output.logstash` holds the property, and after the migration that key holds the migrated
tls mapping instead; it did not keep its value. -/
theorem runMigrations_ssl_sibling_replaced :
    ∃ newConfig,
      candidate exampleExternals (exampleConfig 5 0 0 (Value.map [])) sslPropertyResponse
        = Except.ok newConfig ∧
      getPath ["output", "logstash", "tls"] newConfig.Container
        = some (Value.map [("certificate", Value.str "/etc/cert.pem")]) ∧
      getPath ["output", "logstash", "ssl"] newConfig.Container
        = some (Value.map [("old", Value.str "o")]) ∧
      ∃ bc2, runMigrations exampleExternals newConfig newConfig = some bc2 ∧
        getPath ["output", "logstash", "ssl"] bc2.Container
          = some (Value.map [("certificate", Value.str "/etc/cert.pem")]) ∧
        getPath ["output", "logstash", "ssl", "old"] bc2.Container = none :=
  ⟨_, rfl, rfl, rfl, _, rfl, rfl, rfl⟩

theorem getPath_renameWalks_root (k : String) (hk : k ≠ "output") (q : List String)
    (c : Value) : getPath (k :: q) (renameWalks c) = getPath (k :: q) c := by
  unfold renameWalks
  have e1 := getPath_walk_branch renameTls "output" k "logstash" (Ne.symm hk) ["tls"] q []
    (walk renameSslProperties ["output", "logstash", "tls", "certificate_key"] c)
  have e2 := getPath_walk_branch renameSslProperties "output" k "logstash" (Ne.symm hk)
    ["tls", "certificate_key"] q [] c
  simp only [List.nil_append] at e1 e2
  rw [e1, e2]

/-- C17, amended (the shipper rule acts when `shipper` is a mapping): at version 5.0.x,
for every tree in which `shipper` is absent or not a mapping, the migration does not panic
and leaves the top-level `tags` key and the `shipper` key as they were. -/
theorem runMigrations_shipper_guard (ext : Externals) (wl bc : BeatsConfig)
    (hv : wl.Version.major = 5 ∧ wl.Version.minor = 0)
    (hs : ∀ mmap, getPath ["shipper"] bc.Container ≠ some (Value.map mmap)) :
    ∃ bc2, runMigrations ext wl bc = some bc2 ∧
      getPath ["tags"] bc2.Container = getPath ["tags"] bc.Container ∧
      getPath ["shipper"] bc2.Container = getPath ["shipper"] bc.Container := by
  have hgone : ShipperGone (renameWalks bc.Container) := by
    intro r mmap hc hi
    apply hs mmap
    rw [← getPath_renameWalks_root "shipper" (by decide) [] bc.Container, hc]
    cases hfk : findKey "shipper" r with
    | none => simp [index, hfk] at hi
    | some w =>
      simp only [index, hfk, Option.getD_some] at hi
      simp [getPath, hfk, hi]
  rw [runMigrations_eq ext wl bc hv,
    removeShipper_of_gone { bc with Container := renameWalks bc.Container } hgone]
  refine ⟨_, rfl, ?_, ?_⟩
  · show getPath ["tags"] (pathSettings ext wl (renameWalks bc.Container)) = _
    rw [getPath_pathSettings_root ext wl "tags" [] (by decide),
      getPath_renameWalks_root "tags" (by decide)]
  · show getPath ["shipper"] (pathSettings ext wl (renameWalks bc.Container)) = _
    rw [getPath_pathSettings_root ext wl "shipper" [] (by decide),
      getPath_renameWalks_root "shipper" (by decide)]

/-- Concrete instance: top-level tags `[windows]` and a scalar `shipper` at version 5.0.0;
both are kept. -/
theorem runMigrations_shipper_guard_witness :
    ∃ bc2, runMigrations exampleExternals (exampleConfig 5 0 0 scalarShipperTree)
        (exampleConfig 5 0 0 scalarShipperTree) = some bc2 ∧
      getPath ["tags"] bc2.Container = some (Value.list [Value.str "windows"]) ∧
      getPath ["shipper"] bc2.Container = some (Value.str "legacy") :=
  runMigrations_shipper_guard exampleExternals (exampleConfig 5 0 0 scalarShipperTree)
    (exampleConfig 5 0 0 scalarShipperTree) (by decide)
    (fun mmap h => by simp [getPath, exampleConfig, scalarShipperTree, findKey] at h)

end Winlogbeat
